import Mathlib

/-!
# darknut: unmarshalling NewsDoc documents into annotated structures

A shallow embedding of `unmarshal.go`.

* Go strings are Lean strings, Go errors are their messages (`fmt.Errorf("...: %w", err)`
  is the prefix followed by `err.Error()`).
* `reflect.Type` is `Ty`; the fields of a struct type are looked up by the type's name in an
  environment (`Env.fields`), so that a struct type may refer to itself through a pointer
  or a slice.
* `reflect.Value` is `Value`.  A struct value is the list of its field values in declaration
  order; `Value.zero` is the zero value of any type (nil pointer, nil slice, `""`, `0`,
  `false`, a struct of zero values), which is what `reflect.New` allocates.
* The code mutates the target in place and leaves it partially populated on failure, so every
  operation returns the value of the target after the call together with the optional error.
* `structtag.Parse` is an external collaborator: a struct field carries the result of parsing
  its declaration string.
* The recursion of `unmarshal` through `recurse` follows the nesting of the blocks; it is
  modelled with a fuel argument, and `UnmarshalDocument` supplies the nesting depth of the
  document.
* The model covers calls on which `reflect` does not panic: the target is a non-nil pointer,
  its fields are exported, and a pointer field that is read as a string or a bool points to
  the predeclared type `string` or `bool`.  For a pointer to a defined type of those kinds
  (`*Flag` with `type Flag bool`) the code calls `field.Set(reflect.ValueOf(&b))` with a
  `*bool`, which is not assignable to the field, and panics; `readValue` below says nothing
  about such a field.
* `strconv.Quote` is modelled without its escapes, so the text of a `strconv` cause is that of
  the code only for a value without quotes, backslashes and non-printable characters; the
  properties below leave that text open.
-/

namespace Darknut

/-! ## NewsDoc documents -/

/-- The `newsdoc.Block` type: scalar attributes, the data map (`none` is a nil map), and the
three nested block groups.  The field `Type` is named `Typ`. -/
structure Block where
  ID : String := ""
  UUID : String := ""
  URI : String := ""
  URL : String := ""
  Typ : String := ""
  Title : String := ""
  Data : Option (List (String × String)) := none
  Rel : String := ""
  Role : String := ""
  Name : String := ""
  Value : String := ""
  Contenttype : String := ""
  Links : List Block := []
  Content : List Block := []
  Meta : List Block := []

/-- A block with empty attributes, a nil data map and no nested blocks. -/
def Block.empty : Block := ⟨"", "", "", "", "", "", none, "", "", "", "", "", [], [], []⟩

/-- The `newsdoc.Document` type. -/
structure Document where
  UUID : String := ""
  Typ : String := ""
  URI : String := ""
  URL : String := ""
  Title : String := ""
  Content : List Block := []
  Meta : List Block := []
  Links : List Block := []
  Language : String := ""

/-! ## Types and values seen through `reflect` -/

/-- The `reflect.Kind` of a type.  `Other` stands for the kinds the code never tests for
(arrays, maps, channels, functions, interfaces, complex numbers, `uintptr`). -/
inductive Kind where
  | Bool | Int | Int8 | Int16 | Int32 | Int64
  | Uint | Uint8 | Uint16 | Uint32 | Uint64
  | Float32 | Float64 | String | Struct | Pointer | Slice | Other
  deriving DecidableEq, Repr

/-- The kinds of the types that have no element type. -/
inductive BaseKind where
  | Bool | Int | Int8 | Int16 | Int32 | Int64
  | Uint | Uint8 | Uint16 | Uint32 | Uint64
  | Float32 | Float64 | String | Struct | Other
  deriving DecidableEq, Repr

def BaseKind.toKind : BaseKind → Kind
  | .Bool => .Bool | .Int => .Int | .Int8 => .Int8 | .Int16 => .Int16
  | .Int32 => .Int32 | .Int64 => .Int64
  | .Uint => .Uint | .Uint8 => .Uint8 | .Uint16 => .Uint16
  | .Uint32 => .Uint32 | .Uint64 => .Uint64
  | .Float32 => .Float32 | .Float64 => .Float64
  | .String => .String | .Struct => .Struct | .Other => .Other

/-- A `reflect.Type`: its `Name()` (empty for a type that is not a defined type, such as
`*T` or `[]T`), its kind, and its element type when it is a pointer or a slice. -/
inductive Ty where
  | base (name : String) (kind : BaseKind)
  | pointer (name : String) (elem : Ty)
  | slice (name : String) (elem : Ty)
  deriving Repr

namespace Ty

def Name : Ty → String
  | base n _ => n
  | pointer n _ => n
  | slice n _ => n

def Kind : Ty → Darknut.Kind
  | base _ k => k.toKind
  | pointer _ _ => .Pointer
  | slice _ _ => .Slice

end Ty

/-- The type `*T` that `reflect.New(T)` and `Value.Addr` produce: an unnamed pointer type. -/
def PointerTo (t : Ty) : Ty := .pointer "" t

/-- The identity of the `time.Time` struct type. -/
def timeTypeName : String := "time.Time"

/-- A `reflect.Value`, the contents of a variable of some type. -/
inductive Value where
  | zero
  | str (s : String)
  | bool (b : Bool)
  | int (i : Int)
  | uint (n : Nat)
  | ext (repr : String)
  | ptr (pointee : Value)
  | slice (elems : List Value)
  | struct (fields : List Value)
  deriving Repr

mutual
/-- Equality test on values. -/
def Value.beq : Value → Value → Bool
  | .zero, .zero => true
  | .str a, .str b => decide (a = b)
  | .bool a, .bool b => decide (a = b)
  | .int a, .int b => decide (a = b)
  | .uint a, .uint b => decide (a = b)
  | .ext a, .ext b => decide (a = b)
  | .ptr a, .ptr b => Value.beq a b
  | .slice a, .slice b => Value.beqList a b
  | .struct a, .struct b => Value.beqList a b
  | _, _ => false
/-- Equality test on lists of values. -/
def Value.beqList : List Value → List Value → Bool
  | [], [] => true
  | a :: as, b :: bs => Value.beq a b && Value.beqList as bs
  | _, _ => false
end

mutual
theorem Value.beq_iff : ∀ a b : Value, Value.beq a b = true ↔ a = b
  | .zero, b => by cases b <;> simp [Value.beq]
  | .str a, b => by cases b <;> simp [Value.beq]
  | .bool a, b => by cases b <;> simp [Value.beq]
  | .int a, b => by cases b <;> simp [Value.beq]
  | .uint a, b => by cases b <;> simp [Value.beq]
  | .ext a, b => by cases b <;> simp [Value.beq]
  | .ptr a, b => by cases b <;> simp [Value.beq, Value.beq_iff a]
  | .slice a, b => by cases b <;> simp [Value.beq, Value.beqList_iff a]
  | .struct a, b => by cases b <;> simp [Value.beq, Value.beqList_iff a]
theorem Value.beqList_iff : ∀ as bs : List Value, Value.beqList as bs = true ↔ as = bs
  | [], bs => by cases bs <;> simp [Value.beqList]
  | a :: as, bs => by cases bs <;> simp [Value.beqList, Value.beq_iff a, Value.beqList_iff as]
end

instance : DecidableEq Value := fun a b => decidable_of_iff _ (Value.beq_iff a b)

deriving instance DecidableEq for Except

/-! ## Annotations -/

/-- A `structtag.Tag`: one `key:"name,option,..."` entry of a field declaration. -/
structure Tag where
  Key : String
  Name : String
  Options : List String
  deriving Repr, DecidableEq

/-- What `structtag.Parse` returned for a field declaration: an error, or a tag set that may
be nil (`none`). -/
abbrev ParsedTags := Except String (Option (List Tag))

/-- The method `Tags.Get` of structtag: the first tag with the given key, else an error. -/
def Tags.Get (tags : List Tag) (key : String) : Except String Tag :=
  match tags.find? (fun t => t.Key == key) with
  | some t => .ok t
  | none => .error "tag does not exist"

/-- A `reflect.StructField`; `Tag` holds `structtag.Parse(string(field.Tag))`. -/
structure StructField where
  Name : String
  Typ : Ty
  Tag : ParsedTags

/-- The declarations and library functions the code reaches through `reflect`, `strconv`,
`time` and `encoding`:
* `fields n` are the fields of the struct type named `n`, in declaration order;
* `ParseFloat s bitSize` is `strconv.ParseFloat`;
* `timeParse layout value` is `time.Parse`;
* `UnmarshalText n` is the `UnmarshalText` method of the pointer to the defined type named
  `n`, when that pointer type implements `encoding.TextUnmarshaler`: it takes the receiver's
  value and the text, and gives the receiver's value afterwards and the error. -/
structure Env where
  fields : String → List StructField
  ParseFloat : String → Nat → Except String Value
  timeParse : String → String → Except String Value
  UnmarshalText : String → Option (Value → String → Value × Option String)

/-! ## Library functions on strings -/

/-- Splits `cs` around the first occurrence of `sep`. -/
def cutList (sep : List Char) : List Char → Option (List Char × List Char)
  | [] => if sep = [] then some ([], []) else none
  | c :: cs =>
    if sep.isPrefixOf (c :: cs) then some ([], (c :: cs).drop sep.length)
    else match cutList sep cs with
      | some (before, after) => some (c :: before, after)
      | none => none

/-- The function `strings.Cut`: the text before and after the first `sep`, and whether `sep`
was found; `(s, "", false)` when it was not. -/
def stringsCut (s sep : String) : String × String × Bool :=
  match cutList sep.data s.data with
  | some (before, after) => (String.mk before, String.mk after, true)
  | none => (s, "", false)

/-- The function `strings.CutPrefix`. -/
def stringsCutPrefix (s pre : String) : String × Bool :=
  if pre.data.isPrefixOf s.data then (String.mk (s.data.drop pre.data.length), true)
  else (s, false)

/-- The function `strconv.Quote`, without the escaping of quotes, backslashes and
non-printable characters; it only occurs in the text of a cause. -/
def Quote (s : String) : String := "\"" ++ s ++ "\""

/-- The function `strconv.ParseBool`. -/
def ParseBool (str : String) : Except String Bool :=
  if str = "1" ∨ str = "t" ∨ str = "T" ∨ str = "TRUE" ∨ str = "true" ∨ str = "True" then
    .ok true
  else if str = "0" ∨ str = "f" ∨ str = "F" ∨ str = "FALSE" ∨ str = "false"
      ∨ str = "False" then
    .ok false
  else .error ("strconv.ParseBool: parsing " ++ Quote str ++ ": invalid syntax")

/-- The two causes of a `strconv.NumError` that parsing in base 10 can give. -/
inductive NumErr where
  | ErrSyntax
  | ErrRange
  deriving DecidableEq, Repr

/-- The message of a `strconv.NumError`. -/
def NumErr.Error (fn num : String) : NumErr → String
  | .ErrSyntax => "strconv." ++ fn ++ ": parsing " ++ Quote num ++ ": invalid syntax"
  | .ErrRange => "strconv." ++ fn ++ ": parsing " ++ Quote num ++ ": value out of range"

/-- The digit loop of `strconv.ParseUint` in base 10 on 64-bit words: the value and the
cause of the failure, if any. -/
def parseUintLoop (maxVal : Nat) : List Char → Nat → Nat × Option NumErr
  | [], n => (n, none)
  | c :: cs, n =>
    if '0' ≤ c ∧ c ≤ '9' then
      let d := c.toNat - '0'.toNat
      if n ≥ 2 ^ 64 / 10 + 1 then (maxVal, some .ErrRange)
      else
        let n10 := (n * 10) % 2 ^ 64
        let n1 := (n10 + d) % 2 ^ 64
        if n1 < n10 ∨ n1 > maxVal then (maxVal, some .ErrRange)
        else parseUintLoop maxVal cs n1
    else (0, some .ErrSyntax)

/-- The function `strconv.ParseUint(s, 10, bitSize)` for `0 ≤ bitSize ≤ 64`: the value and
the cause of the failure, if any. -/
def ParseUint (s : String) (bitSize : Nat) : Nat × Option NumErr :=
  if s = "" then (0, some .ErrSyntax)
  else
    let bitSize := if bitSize = 0 then 64 else bitSize
    parseUintLoop (2 ^ bitSize - 1) s.data 0

/-- The function `strconv.ParseInt(s, 10, bitSize)` for `0 ≤ bitSize ≤ 64`. -/
def ParseInt (s : String) (bitSize : Nat) : Int × Option NumErr :=
  match s.data with
  | [] => (0, some .ErrSyntax)
  | c :: cs =>
    let neg := c = '-'
    let rest := if c = '+' ∨ c = '-' then String.mk cs else s
    let (un, err) := ParseUint rest bitSize
    if err = some .ErrSyntax then (0, err)
    else
      let bitSize := if bitSize = 0 then 64 else bitSize
      let cutoff := 2 ^ (bitSize - 1)
      if ¬ neg ∧ un ≥ cutoff then (((cutoff - 1 : Nat) : Int), some .ErrRange)
      else if neg ∧ un > cutoff then (-(cutoff : Int), some .ErrRange)
      else if neg then (-(un : Int), none) else ((un : Int), none)

/-- The function `slices.Contains` on strings. -/
def slicesContains (xs : List String) (x : String) : Bool := xs.contains x

/-! ## Attribute resolvers and block selectors -/

/-- The type `blockFunc`. -/
abbrev BlockFunc := String → List Block

/-- The type `attrFunc`. -/
abbrev AttrFunc := String → String × Bool

/-- Indexing of a Go map of strings: the value and whether the key is present. -/
def mapIndex (m : List (String × String)) (key : String) : String × Bool :=
  match m.lookup key with
  | some v => (v, true)
  | none => ("", false)

def documentBlocks (d : Document) : BlockFunc := fun s =>
  if s = "meta" then d.Meta
  else if s = "links" then d.Links
  else if s = "content" then d.Content
  else []

def documentAttributes (d : Document) : AttrFunc := fun name =>
  if name = "uuid" then (d.UUID, true)
  else if name = "type" then (d.Typ, true)
  else if name = "uri" then (d.URI, true)
  else if name = "url" then (d.URL, true)
  else if name = "title" then (d.Title, true)
  else if name = "language" then (d.Language, true)
  else ("", false)

def blockBlocks (b : Block) : BlockFunc := fun s =>
  if s = "meta" then b.Meta
  else if s = "links" then b.Links
  else if s = "content" then b.Content
  else []

def blockAttributes (block : Block) : AttrFunc := fun name =>
  let (key, isData) := stringsCutPrefix name "data."
  if isData then
    match block.Data with
    | none => ("", false)
    | some data => mapIndex data key
  else if name = "id" then (block.ID, true)
  else if name = "uuid" then (block.UUID, true)
  else if name = "type" then (block.Typ, true)
  else if name = "uri" then (block.URI, true)
  else if name = "url" then (block.URL, true)
  else if name = "title" then (block.Title, true)
  else if name = "rel" then (block.Rel, true)
  else if name = "name" then (block.Name, true)
  else if name = "value" then (block.Value, true)
  else if name = "contenttype" then (block.Contenttype, true)
  else if name = "role" then (block.Role, true)
  else ("", false)

/-! ## Scalar resolution -/

def timeFormat (ndtag : Tag) : String :=
  go ndtag.Options
where
  /-- The loop over the options. -/
  go : List String → String
    | [] => "2006-01-02T15:04:05Z07:00"
    | opt :: rest =>
      let (k, v, ok) := stringsCut opt "="
      if ok ∧ k = "format" then v else go rest

def bitSize (k : Kind) : Nat :=
  match k with
  | .Int | .Int64 | .Uint | .Uint64 | .Float64 => 64
  | .Int32 | .Uint32 | .Float32 => 32
  | .Int16 | .Uint16 => 16
  | .Int8 | .Uint8 => 8
  | _ => 0

/-- Storing a parsed value in the field: through a freshly allocated pointer when the field
is a pointer, directly otherwise.  For a string or a bool the pointer is a `*string` or a
`*bool`: storing it panics when the field points to a defined type of that kind, a case
that is outside the model. -/
def store (pointer : Bool) (v : Value) : Value :=
  if pointer then .ptr v else v

/-- The type assertion `field.Addr().Interface().(encoding.TextUnmarshaler)`: the method of
the pointer to the field's type; a pointer to a pointer has no methods. -/
def textUnmarshaler (env : Env) (fieldTy : Ty) :
    Option (Value → String → Value × Option String) :=
  match fieldTy with
  | .pointer _ _ => none
  | t => env.UnmarshalText t.Name

/-- The tail of `readValue`, after the switch on the kind. -/
def readText (env : Env) (fieldTy : Ty) (field : Value) (value : String) :
    Value × Option String :=
  match textUnmarshaler env fieldTy with
  | some unmarshalText =>
    match unmarshalText field value with
    | (field', some err) => (field', some ("failed to unmarshal text: " ++ err))
    | (field', none) => (field', none)
  | none => (field, none)

def readValue (env : Env) (attributes : AttrFunc) (fieldTy : Ty) (field : Value)
    (ndtag : Tag) : Value × Option String :=
  let pointer := fieldTy.Kind == .Pointer
  let (value, ok) := attributes ndtag.Name
  if !ok && !pointer && !slicesContains ndtag.Options "optional" then
    (field, some "missing required value")
  else if !ok then (field, none)
  else
    let valueType := match fieldTy with
      | .pointer _ elem => elem
      | t => t
    let kind := valueType.Kind
    match kind with
    | .String => (store pointer (.str value), none)
    | .Bool =>
      match ParseBool value with
      | .error err => (field, some ("invalid bool: " ++ err))
      | .ok b => (store pointer (.bool b), none)
    | .Uint | .Uint64 | .Uint32 | .Uint16 | .Uint8 =>
      match ParseUint value (bitSize kind) with
      | (_, some err) => (field, some ("invalid uint: " ++ err.Error "ParseUint" value))
      | (i, none) => (store pointer (.uint i), none)
    | .Int | .Int64 | .Int32 | .Int16 | .Int8 =>
      match ParseInt value (bitSize kind) with
      | (_, some err) => (field, some ("invalid int: " ++ err.Error "ParseInt" value))
      | (i, none) => (store pointer (.int i), none)
    | .Float32 | .Float64 =>
      match env.ParseFloat value (bitSize kind) with
      | .error err => (field, some ("invalid float: " ++ err))
      | .ok f => (store pointer f, none)
    | .Struct =>
      if valueType.Name = timeTypeName then
        match env.timeParse (timeFormat ndtag) value with
        | .error err => (field, some ("invalid time: " ++ err))
        | .ok t => (store pointer t, none)
      else readText env fieldTy field value
    | _ => readText env fieldTy field value

/-! ## Block-group recursion -/

/-- Assignment `m[k] = v` in a Go map, kept as a list of entries with distinct keys. -/
def mapSet : List (String × String) → String → String → List (String × String)
  | [], k, v => [(k, v)]
  | (k', v') :: rest, k, v =>
    if k' = k then (k, v) :: rest else (k', v') :: mapSet rest k v

/-- The map `pattern` that `recurse` builds from the options of the annotation. -/
def buildPattern (options : List String) : List (String × String) :=
  options.foldl (fun pattern opt =>
    let (k, v, _) := stringsCut opt "="
    mapSet pattern k v) []

/-- The inner loop of `recurse` over the entries of `pattern`: `true` when the loop ends
without `continue bloop`.  The order in which a Go map is ranged over does not matter, as
every entry has to pass. -/
def blockMatches (pattern : List (String × String)) (block : Block) : Bool :=
  pattern.all (fun kv => (blockAttributes block kv.1).1 == kv.2)

/-- The function `reflect.Append` with one element; a nil slice has no elements. -/
def Append (s : Value) (x : Value) : Value :=
  match s with
  | .slice elems => .slice (elems ++ [x])
  | _ => .slice [x]

/-- The recursive call that `recurse` makes: `unmarshal(blockBlocks(b), blockAttributes(b),
target)` for a block `b`, the type of `target` and the value it points to; the result is
the pointee afterwards and the error. -/
abbrev Callee := Block → Ty → Value → Value × Option String

/-- The loop `bloop` of `recurse`: the field afterwards, the flag and the error. -/
def recurseLoop (um : Callee) (pattern : List (String × String)) (fieldTy : Ty) :
    List Block → Value → Value × Bool × Option String
  | [], field => (field, fieldTy.Kind == .Slice, none)
  | block :: rest, field =>
    if !blockMatches pattern block then recurseLoop um pattern fieldTy rest field
    else
      match fieldTy with
      | .base _ .Struct =>
        -- target = field.Addr(): the callee works on the field itself
        match um block (PointerTo fieldTy) field with
        | (field', some err) => (field', false, some err)
        | (field', none) => (field', true, none)
      | .pointer _ elem =>
        -- target = reflect.New(elem), stored in the field before the call
        match um block (PointerTo elem) .zero with
        | (target, some err) => (.ptr target, false, some err)
        | (target, none) => (.ptr target, true, none)
      | .slice _ eType =>
        if eType.Kind = .Pointer then
          (field, false, some "slice element  cannot be a pointer")
        else
          match um block (PointerTo eType) .zero with
          | (_, some err) => (field, false, some err)
          | (target, none) => recurseLoop um pattern fieldTy rest (Append field target)
      | .base name _ => (field, false, some ("invalid field type " ++ Quote name))

def recurse (um : Callee) (blocks : List Block) (fieldTy : Ty) (field : Value)
    (ndtag : Tag) : Value × Bool × Option String :=
  recurseLoop um (buildPattern ndtag.Options) fieldTy blocks field

/-! ## The recursive unmarshaller -/

/-- The body of the loop of `unmarshal` for one field: the field afterwards, and the error
with which `unmarshal` returns, if any.  `tName` is `t.Name()`. -/
def unmarshalField (env : Env) (um : Callee) (tName : String) (blocks : BlockFunc)
    (attributes : AttrFunc) (field : StructField) (fieldRef : Value) :
    Value × Option String :=
  match field.Tag with
  | .error err =>
    (fieldRef, some ("failed to parse tags for " ++ tName ++ "." ++ field.Name ++ ": " ++ err))
  | .ok none => (fieldRef, none)
  | .ok (some tag) =>
    match Tags.Get tag "newsdoc" with
    | .error err =>
      (fieldRef,
        some ("invalid newsdoc tag for " ++ tName ++ "." ++ field.Name ++ ": " ++ err))
    | .ok ndtag =>
      if ndtag.Name = "meta" ∨ ndtag.Name = "links" ∨ ndtag.Name = "content" then
        match recurse um (blocks ndtag.Name) field.Typ fieldRef ndtag with
        | (fieldRef', _, some err) =>
          (fieldRef', some ("failed to unmarshal blocks for " ++ tName ++ "." ++ field.Name
            ++ ": " ++ err))
        | (fieldRef', ok, none) =>
          if !ok && field.Typ.Kind != .Pointer then
            (fieldRef', some ("missing required block for " ++ tName ++ "." ++ field.Name))
          else (fieldRef', none)
      else
        match readValue env attributes field.Typ fieldRef ndtag with
        | (fieldRef', some err) =>
          (fieldRef', some ("failed to unmarshal " ++ tName ++ "." ++ field.Name ++ ": "
            ++ err))
        | (fieldRef', none) => (fieldRef', none)

/-- The loop of `unmarshal` over the fields, in declaration order, on the field values of
the target; a field value that is not there is the zero value. -/
def unmarshalFields (step : StructField → Value → Value × Option String) :
    List StructField → List Value → List Value × Option String
  | [], values => (values, none)
  | field :: rest, values =>
    match step field (values.headD .zero) with
    | (fieldRef', some err) => (fieldRef' :: values.tail, some err)
    | (fieldRef', none) =>
      let (values', err) := unmarshalFields step rest values.tail
      (fieldRef' :: values', err)

/-- The field values of a struct value. -/
def Value.Fields : Value → List Value
  | .struct fields => fields
  | _ => []

/-- The function `unmarshal`, with its recursive calls made through `um`.  `t` is
`reflect.TypeOf(o)` and `o` the value the pointer refers to; the result is that value
afterwards and the error. -/
def unmarshalWith (env : Env) (um : Callee) (blocks : BlockFunc) (attributes : AttrFunc)
    (t : Ty) (o : Value) : Value × Option String :=
  match t with
  | .pointer tName e =>
    match e with
    | .base eName .Struct =>
      let (values, err) :=
        unmarshalFields (unmarshalField env um tName blocks attributes) (env.fields eName)
          o.Fields
      (.struct values, err)
    | _ => (o, some "must be a pointer to a struct")
  | _ => (o, some "must be a pointer")

/-- The function `unmarshal`; `fuel` bounds the depth of the recursion. -/
def unmarshal (env : Env) : Nat → BlockFunc → AttrFunc → Ty → Value → Value × Option String
  | 0, _, _, _, o => (o, some "recursion deeper than the fuel")
  | fuel + 1, blocks, attributes, t, o =>
    unmarshalWith env
      (fun block t' o' => unmarshal env fuel (blockBlocks block) (blockAttributes block) t' o')
      blocks attributes t o

mutual
/-- The nesting depth of a block: one more than the deepest nested block. -/
def Block.depth : Block → Nat
  | ⟨_, _, _, _, _, _, _, _, _, _, _, _, links, content, meta⟩ =>
    max (depthList links) (max (depthList content) (depthList meta)) + 1
/-- The deepest block of a list. -/
def depthList : List Block → Nat
  | [] => 0
  | b :: bs => max b.depth (depthList bs)
end

/-- The nesting depth of a document. -/
def Document.depth (d : Document) : Nat :=
  max (depthList d.Links) (max (depthList d.Content) (depthList d.Meta)) + 1

/-- The function `UnmarshalDocument`. -/
def UnmarshalDocument (env : Env) (doc : Document) (t : Ty) (o : Value) :
    Value × Option String :=
  unmarshal env doc.depth (documentBlocks doc) (documentAttributes doc) t o

/-! ## Auxiliary definitions and concrete inputs -/

/-- The target types of `ExampleUnmarshalDocument`, the type `descriptionBlock` of the tests
and a struct `pointerLinks` with a field `Links []*exampleLink`, with a `time.Parse` that
keeps the layout and the text, and a `uuid.UUID` that keeps the text. -/
def exampleEnv : Env where
  fields := fun n =>
    if n = "exampleItem" then
      [ ⟨"UUID", .base "UUID" .Other, .ok (some [⟨"newsdoc", "uuid", []⟩])⟩,
        ⟨"Meta", .base "exampleBlock" .Struct,
          .ok (some [⟨"newsdoc", "meta", ["type=example/meta"]⟩])⟩,
        ⟨"Associates", .slice "" (.base "exampleLink" .Struct),
          .ok (some [⟨"newsdoc", "links", ["rel=associate"]⟩])⟩ ]
    else if n = "exampleBlock" then
      [ ⟨"Date", .pointer "" (.base "time.Time" .Struct),
          .ok (some [⟨"newsdoc", "data.date", ["format=2006-01-02"]⟩])⟩,
        ⟨"Timestamp", .base "time.Time" .Struct,
          .ok (some [⟨"newsdoc", "data.timestamp", []⟩])⟩,
        ⟨"Public", .base "bool" .Bool, .ok (some [⟨"newsdoc", "data.public", []⟩])⟩ ]
    else if n = "exampleLink" then
      [ ⟨"Type", .base "string" .String, .ok (some [⟨"newsdoc", "type", []⟩])⟩,
        ⟨"Name", .base "string" .String, .ok (some [⟨"newsdoc", "name", []⟩])⟩,
        ⟨"Age", .pointer "" (.base "int" .Int), .ok (some [⟨"newsdoc", "data.age", []⟩])⟩ ]
    else if n = "descriptionBlock" then
      [ ⟨"Role", .base "string" .String, .ok (some [⟨"newsdoc", "role", []⟩])⟩,
        ⟨"Text", .base "string" .String, .ok (some [⟨"newsdoc", "data.text", []⟩])⟩ ]
    else if n = "pointerLinks" then
      [ ⟨"Links", .slice "" (.pointer "" (.base "exampleLink" .Struct)),
          .ok (some [⟨"newsdoc", "links", ["rel=associate"]⟩])⟩ ]
    else []
  ParseFloat := fun s _ => .ok (.ext s)
  timeParse := fun layout v => .ok (.ext (layout ++ " " ++ v))
  UnmarshalText := fun n => if n = "UUID" then some (fun _ s => (.ext s, none)) else none

/-- The first link of the example document. -/
def ren : Block :=
  { Block.empty with Rel := "associate", Name := "Ren", Typ := "dog/chihuahua" }

/-- The second link of the example document. -/
def stimpy : Block :=
  { Block.empty with
    Rel := "associate", Name := "Stimpy", Typ := "cat/manx", Data := some [("age", "3")] }

/-- The signed integer kinds. -/
def isSignedInt (kind : BaseKind) : Bool :=
  match kind with
  | .Int | .Int8 | .Int16 | .Int32 | .Int64 => true
  | _ => false

/-- The elements of a slice value; a nil slice has none. -/
def Value.Elems : Value → List Value
  | .slice elems => elems
  | _ => []

/-- The values that `recurse` unmarshals for a slice field: one for each block that passes
the filter, in the order of the blocks, each from a fresh value of the element type. -/
def freshElems (um : Callee) (pattern : List (String × String)) (eType : Ty)
    (blocks : List Block) : List Value :=
  (blocks.filter (blockMatches pattern)).map (fun b => (um b (PointerTo eType) .zero).1)

/-- The recursive call made by `unmarshal` with `fuel + 1`. -/
def callee (env : Env) (fuel : Nat) : Callee :=
  fun block t o => unmarshal env fuel (blockBlocks block) (blockAttributes block) t o

/-- The value of the last option with key `k`; an option without `=` is its own key and has
the empty value. -/
def lastValue : List String → String → Option String
  | [], _ => none
  | opt :: rest, k =>
    match lastValue rest k with
    | some v => some v
    | none => if (stringsCut opt "=").1 = k then some (stringsCut opt "=").2.1 else none

/-- The matching of a block as the specification words it: every option `key=value` names
an attribute that the block's resolver reports present, with exactly that value. -/
def matchesAsSpecified (options : List String) (block : Block) : Bool :=
  options.all (fun opt =>
    (blockAttributes block (stringsCut opt "=").1).2 &&
      (blockAttributes block (stringsCut opt "=").1).1 == (stringsCut opt "=").2.1)

/-- A field annotated with the `newsdoc` tag `ndtag` that names a block group. -/
def groupField (field : StructField) (ndtag : Tag) : Prop :=
  (∃ tags, field.Tag = .ok (some tags) ∧ Tags.Get tags "newsdoc" = .ok ndtag) ∧
    (ndtag.Name = "meta" ∨ ndtag.Name = "links" ∨ ndtag.Name = "content")

/-- The meta block of the example document. -/
def exampleMeta : Block :=
  { Block.empty with
    Typ := "example/meta",
    Data := some [("date", "2023-08-13"), ("timestamp", "2023-08-21T14:34:47+02:00"),
      ("public", "true")] }

/-- The document of `ExampleUnmarshalDocument`. -/
def exampleDoc : Document :=
  { UUID := "d04e9871-c3df-4fb0-878f-23f8d5ada7c2",
    Meta := [exampleMeta],
    Links := [ren, stimpy] }

/-- The field `Meta exampleBlock` of `exampleItem`. -/
def metaField : StructField :=
  ⟨"Meta", .base "exampleBlock" .Struct,
    .ok (some [⟨"newsdoc", "meta", ["type=example/meta"]⟩])⟩

/-- The field `InternalDescription *descriptionBlock` of `planningItem`. -/
def internalDescription : StructField :=
  ⟨"InternalDescription", .pointer "" (.base "descriptionBlock" .Struct),
    .ok (some [⟨"newsdoc", "meta", ["type=core/description", "role=internal"]⟩])⟩

/-- A description block with the given role and text. -/
def description (role text : String) : Block :=
  { Block.empty with Typ := "core/description", Role := role, Data := some [("text", text)] }

/-- The field `Links []*exampleLink` of `pointerLinks`. -/
def pointerLinksField : StructField :=
  ⟨"Links", .slice "" (.pointer "" (.base "exampleLink" .Struct)),
    .ok (some [⟨"newsdoc", "links", ["rel=associate"]⟩])⟩

/-- Struct types for the handling of declarations: `tagged` has a field `Note` for which
`structtag.Parse` returns a nil tag set between two annotated fields, `plain` is `tagged`
without that field, `jsonOnly` has one field that only carries a `json` annotation; and the
types `planningItem` and `assignmentBlock` of the tests, cut down to one field each. -/
def declEnv : Env where
  fields := fun n =>
    if n = "tagged" then
      [ ⟨"Title", .base "string" .String, .ok (some [⟨"newsdoc", "title", []⟩])⟩,
        ⟨"Note", .base "string" .String, .ok none⟩,
        ⟨"Kind", .base "string" .String, .ok (some [⟨"newsdoc", "type", []⟩])⟩ ]
    else if n = "plain" then
      [ ⟨"Title", .base "string" .String, .ok (some [⟨"newsdoc", "title", []⟩])⟩,
        ⟨"Kind", .base "string" .String, .ok (some [⟨"newsdoc", "type", []⟩])⟩ ]
    else if n = "jsonOnly" then
      [ ⟨"Title", .base "string" .String, .ok (some [⟨"json", "title", []⟩])⟩ ]
    else if n = "planningItem" then
      [ ⟨"Assignments", .slice "" (.base "assignmentBlock" .Struct),
          .ok (some [⟨"newsdoc", "meta", ["type=core/assignment"]⟩])⟩ ]
    else if n = "assignmentBlock" then
      [ ⟨"Status", .base "string" .String, .ok (some [⟨"newsdoc", "data.status", []⟩])⟩ ]
    else []
  ParseFloat := fun s _ => .ok (.ext s)
  timeParse := fun _ v => .ok (.ext v)
  UnmarshalText := fun _ => none

/-- A document with a title and a type. -/
def titledDoc : Document := { Title := "A title", Typ := "core/article" }

/-- A document with one assignment block that has no data. -/
def assignmentDoc : Document :=
  { Meta := [{ Block.empty with Typ := "core/assignment" }] }

/-- The number that decimal digits denote, continuing from `n`. -/
def digitsValue (n : Nat) (cs : List Char) : Nat :=
  cs.foldl (fun n c => n * 10 + (c.toNat - '0'.toNat)) n

/-- A decimal digit. -/
def isDecimalDigit (c : Char) : Prop := '0' ≤ c ∧ c ≤ '9'

instance (c : Char) : Decidable (isDecimalDigit c) := by
  unfold isDecimalDigit
  infer_instance

/-- The value of an unsigned base-10 literal: one or more decimal digits. -/
def uintLiteral (s : String) : Option Nat :=
  if s.data ≠ [] ∧ ∀ c ∈ s.data, isDecimalDigit c then some (digitsValue 0 s.data) else none

/-- The value of a signed base-10 literal: an optional sign and one or more decimal digits. -/
def intLiteral (s : String) : Option Int :=
  match s.data with
  | [] => none
  | c :: cs =>
    if c = '+' then (uintLiteral (String.mk cs)).map (fun n : Nat => (n : Int))
    else if c = '-' then (uintLiteral (String.mk cs)).map (fun n : Nat => -(n : Int))
    else (uintLiteral s).map (fun n : Nat => (n : Int))

/-- The range check of `strconv.ParseInt` on the result of `strconv.ParseUint`. -/
def signedResult (C : Nat) (neg : Bool) (r : Nat × Option NumErr) : Int × Option NumErr :=
  if r.2 = some NumErr.ErrSyntax then (0, r.2)
  else if ¬ neg = true ∧ r.1 ≥ C then (((C - 1 : Nat) : Int), some NumErr.ErrRange)
  else if neg = true ∧ r.1 > C then (-(C : Int), some NumErr.ErrRange)
  else if neg = true then (-(r.1 : Int), none) else ((r.1 : Int), none)

/-- The unsigned integer kinds. -/
def isUnsignedInt (kind : BaseKind) : Bool :=
  match kind with
  | .Uint | .Uint8 | .Uint16 | .Uint32 | .Uint64 => true
  | _ => false

/-- A block whose data holds integer literals. -/
def numbers : Block :=
  { Block.empty with Data := some [("a", "127"), ("b", "128"), ("c", "255"), ("d", "-1")] }

/-- The type that `readValue` coerces to: the element type of a pointer, else the type of
the field. -/
def valueType (fieldTy : Ty) : Ty :=
  match fieldTy with
  | .pointer _ elem => elem
  | t => t

/-- The types for which the switch of `readValue` has a case that returns: strings, bools,
integers, floats and `time.Time`. -/
def hasCoercionRule (t : Ty) : Bool :=
  match t.Kind with
  | .String | .Bool => true
  | .Uint | .Uint64 | .Uint32 | .Uint16 | .Uint8 => true
  | .Int | .Int64 | .Int32 | .Int16 | .Int8 => true
  | .Float32 | .Float64 => true
  | .Struct => t.Name == timeTypeName
  | _ => false

/-- The names of the attributes of a block. -/
def blockAttrNames : List String :=
  ["id", "uuid", "type", "uri", "url", "title", "rel", "name", "value", "contenttype", "role"]

/-- The names of the attributes of a document. -/
def docAttrNames : List String := ["uuid", "type", "uri", "url", "title", "language"]

/-- The texts that `strconv.ParseBool` reads as true. -/
def trueForms : List String := ["1", "t", "T", "TRUE", "true", "True"]

/-- The texts that `strconv.ParseBool` reads as false. -/
def falseForms : List String := ["0", "f", "F", "FALSE", "false", "False"]

/-- A block whose data holds the texts of bools. -/
def flags : Block :=
  { Block.empty with Data := some [("a", "True"), ("b", "0"), ("c", "yes")] }

/-- The layout that an option `format=<layout>` gives; `none` for any other option. -/
def formatValue (opt : String) : Option String :=
  if "format=".data.isPrefixOf opt.data then some (String.mk (opt.data.drop 7)) else none

/-- A block with a date. -/
def dated : Block := { Block.empty with Data := some [("date", "2023-08-13")] }

/-- A lower-case hexadecimal digit. -/
def isHexDigit (c : Char) : Bool :=
  decide (('0' ≤ c ∧ c ≤ '9') ∨ ('a' ≤ c ∧ c ≤ 'f'))

/-- A UUID in its canonical text: 36 characters, hyphens at the positions 8, 13, 18 and 23
and lower-case hexadecimal digits elsewhere. -/
def isCanonicalUUID (s : String) : Bool :=
  decide (s.data.length = 36) &&
    s.data.enum.all (fun ic =>
      if ic.1 = 8 ∨ ic.1 = 13 ∨ ic.1 = 18 ∨ ic.1 = 23 then decide (ic.2 = '-')
      else isHexDigit ic.2)

/-- The types of the end-to-end scenario: a planning item with a meta block and a sequence of
deliverable links; and a self-referential type `node` with a sequence and a pointer of its
own type.  The type `UUID` stands for `uuid.UUID`: it decodes a text in the canonical form
to the UUID that the text denotes, and fails on any other text (the library reads some
other forms as well). -/
def planningEnv : Env where
  fields := fun n =>
    if n = "planning" then
      [ ⟨"Meta", .base "planningBlock" .Struct,
          .ok (some [⟨"newsdoc", "meta", ["type=core/planning-item"]⟩])⟩,
        ⟨"Deliverables", .slice "" (.base "deliverableLink" .Struct),
          .ok (some [⟨"newsdoc", "links", ["rel=deliverable"]⟩])⟩ ]
    else if n = "planningBlock" then
      [ ⟨"Urgency", .base "int" .Int, .ok (some [⟨"newsdoc", "data.urgency", []⟩])⟩,
        ⟨"Public", .base "bool" .Bool, .ok (some [⟨"newsdoc", "data.public", []⟩])⟩ ]
    else if n = "deliverableLink" then
      [ ⟨"UUID", .base "UUID" .Other, .ok (some [⟨"newsdoc", "uuid", []⟩])⟩,
        ⟨"Type", .base "string" .String, .ok (some [⟨"newsdoc", "type", []⟩])⟩ ]
    else if n = "node" then
      [ ⟨"Title", .base "string" .String, .ok (some [⟨"newsdoc", "title", []⟩])⟩,
        ⟨"Children", .slice "" (.base "node" .Struct),
          .ok (some [⟨"newsdoc", "content", []⟩])⟩,
        ⟨"Next", .pointer "" (.base "node" .Struct), .ok (some [⟨"newsdoc", "links", []⟩])⟩ ]
    else []
  ParseFloat := fun s _ => .ok (.ext s)
  timeParse := fun _ v => .ok (.ext v)
  UnmarshalText := fun n =>
    if n = "UUID" then
      some (fun v s => if isCanonicalUUID s then (.ext s, none) else (v, some "invalid UUID"))
    else none

/-- The meta block of the end-to-end scenario. -/
def planningMeta : Block :=
  { Block.empty with
    Typ := "core/planning-item", Data := some [("urgency", "2"), ("public", "true")] }

/-- A deliverable link. -/
def deliverable (uuid type : String) : Block :=
  { Block.empty with Rel := "deliverable", UUID := uuid, Typ := type }

/-- The document of the end-to-end scenario. -/
def planningDoc : Document :=
  { UUID := "7c4d8a1e-0b6f-4d2a-9e3c-5a1f2b3c4d5e", Typ := "core/planning", Title := "Plan",
    Meta := [planningMeta],
    Links := [deliverable "3f2c1a9e-5b7d-4c8f-9a1b-2d3e4f5a6b7c" "core/article",
      deliverable "8a7b6c5d-4e3f-4a2b-9c1d-0e9f8a7b6c5d" "core/flash"] }

/-- A block with a title, a nested content block and a nested link: the first content block
of `nodeDoc`. -/
def firstNode : Block :=
  { Block.empty with
    Title := "first",
    Content := [{ Block.empty with Title := "inner" }],
    Links := [{ Block.empty with Title := "linked" }] }

/-- A description block without data. -/
def brokenDescription : Block :=
  { Block.empty with Typ := "core/description", Role := "internal" }

/-- The function `unmarshal` with an arbitrary result for a recursion that is deeper than
the fuel. -/
def unmarshalFrom (env : Env) (exhausted : Value → Value × Option String) :
    Nat → BlockFunc → AttrFunc → Ty → Value → Value × Option String
  | 0, _, _, _, o => exhausted o
  | fuel + 1, blocks, attributes, t, o =>
    unmarshalWith env
      (fun block t' o' =>
        unmarshalFrom env exhausted fuel (blockBlocks block) (blockAttributes block) t' o')
      blocks attributes t o

/-- A document of nodes, nested two deep. -/
def nodeDoc : Document :=
  { Title := "root",
    Content := [
      { Block.empty with
        Title := "first",
        Content := [{ Block.empty with Title := "inner" }],
        Links := [{ Block.empty with Title := "linked" }] },
      { Block.empty with Title := "second" }] }

/-- What `structtag.Parse` returns for the empty declaration of a field without annotations:
a tag set that is not nil and holds no tags. -/
def untaggedTags : ParsedTags := .ok (some [])

/-- A struct `item` with an annotated field `Title` and a field `Note string` without any
annotation. -/
def untaggedEnv : Env where
  fields := fun n =>
    if n = "item" then
      [ ⟨"Title", .base "string" .String, .ok (some [⟨"newsdoc", "title", []⟩])⟩,
        ⟨"Note", .base "string" .String, untaggedTags⟩ ]
    else []
  ParseFloat := fun s _ => .ok (.ext s)
  timeParse := fun _ v => .ok (.ext v)
  UnmarshalText := fun _ => none

/-- A block whose data holds integer literals at the ends of the ranges of 16, 32 and 64
bits. -/
def widths : Block :=
  { Block.empty with
    Data := some [("a", "-32768"), ("b", "32768"), ("c", "4294967295"),
      ("d", "9223372036854775807"), ("e", "9223372036854775808")] }

/-! # Properties -/

/-! ## Lemmas on strings -/

theorem append_ne_of_head (p x q : String) (c d : Char) (cs ds : List Char)
    (hp : p.data = c :: cs) (hq : q.data = d :: ds) (h : c ≠ d) : p ++ x ≠ q := by
  intro he
  have := congrArg String.data he
  rw [String.data_append, hp, hq] at this
  simp at this
  exact h this.1

theorem stringsCutPrefix_data (key : String) :
    stringsCutPrefix ("data." ++ key) "data." = (key, true) := by
  simp [stringsCutPrefix, String.data_append]

/-! ## Scalar resolution -/

theorem readValue_absent (env : Env) (attributes : AttrFunc) (fieldTy : Ty) (field : Value)
    (ndtag : Tag) (h : (attributes ndtag.Name).2 = false) :
    readValue env attributes fieldTy field ndtag =
      if fieldTy.Kind ≠ .Pointer ∧ "optional" ∉ ndtag.Options then
        (field, some "missing required value")
      else (field, none) := by
  rcases hv : attributes ndtag.Name with ⟨value, ok⟩
  rw [hv] at h
  simp only at h
  subst h
  by_cases hp : fieldTy.Kind = .Pointer <;> by_cases ho : "optional" ∈ ndtag.Options <;>
    simp [readValue, hv, hp, ho, slicesContains]

theorem readText_ne_missing (env : Env) (fieldTy : Ty) (field : Value) (value : String) :
    (readText env fieldTy field value).2 ≠ some "missing required value" := by
  unfold readText
  cases textUnmarshaler env fieldTy with
  | none => simp
  | some f =>
    rcases hf : f field value with ⟨v, _ | e⟩
    · simp [hf]
    · simp only [hf, ne_eq, Option.some.injEq]
      exact append_ne_of_head _ _ _ 'f' 'm' _ _ rfl rfl (by decide)

theorem readValue_present_ne_missing (env : Env) (attributes : AttrFunc) (fieldTy : Ty)
    (field : Value) (ndtag : Tag) (h : (attributes ndtag.Name).2 = true) :
    (readValue env attributes fieldTy field ndtag).2 ≠ some "missing required value" := by
  rcases hv : attributes ndtag.Name with ⟨value, ok⟩
  rw [hv] at h
  simp only at h
  subst h
  have hi : ∀ p x : String, p.data.head? = some 'i' → p ++ x ≠ "missing required value" := by
    intro p x hp
    rcases hd : p.data with _ | ⟨c, cs⟩
    · simp [hd] at hp
    · simp [hd] at hp
      subst hp
      exact append_ne_of_head _ _ _ 'i' 'm' _ _ hd rfl (by decide)
  simp only [readValue, hv]
  simp only [Bool.not_true, Bool.false_and, Bool.false_eq_true, ↓reduceIte]
  split <;> (try split) <;> (try split) <;>
    first
    | exact readText_ne_missing _ _ _ _
    | (simp only [ne_eq, Option.some.injEq]; exact hi _ _ rfl)
    | simp

/-- C3: `readValue` fails with "missing required value" exactly when the resolver reports the
name absent, the field is not a pointer and `optional` is not among the options; when the
name is absent and the field is a pointer or `optional` is set, `readValue` succeeds and
leaves the field as it was. -/
theorem readValue_missing_required_iff (env : Env) (attributes : AttrFunc) (fieldTy : Ty)
    (field : Value) (ndtag : Tag) :
    ((readValue env attributes fieldTy field ndtag).2 = some "missing required value" ↔
      ((attributes ndtag.Name).2 = false ∧ fieldTy.Kind ≠ .Pointer ∧
        "optional" ∉ ndtag.Options)) ∧
    ((attributes ndtag.Name).2 = false →
      (fieldTy.Kind = .Pointer ∨ "optional" ∈ ndtag.Options) →
      readValue env attributes fieldTy field ndtag = (field, none)) := by
  constructor
  · constructor
    · intro h
      cases hok : (attributes ndtag.Name).2 with
      | true => exact absurd h (readValue_present_ne_missing env attributes fieldTy field ndtag hok)
      | false =>
        rw [readValue_absent env attributes fieldTy field ndtag hok] at h
        by_cases hc : fieldTy.Kind ≠ .Pointer ∧ "optional" ∉ ndtag.Options
        · exact ⟨rfl, hc⟩
        · simp [if_neg hc] at h
    · rintro ⟨hok, hc⟩
      rw [readValue_absent env attributes fieldTy field ndtag hok, if_pos hc]
  · intro hok hc
    rw [readValue_absent env attributes fieldTy field ndtag hok, if_neg]
    rintro ⟨h1, h2⟩
    rcases hc with hc | hc
    · exact h1 hc
    · exact h2 hc

theorem readValue_missing_required_iff_witness :
    (readValue exampleEnv (blockAttributes Block.empty) (.base "string" .String) .zero
        ⟨"newsdoc", "data.text", []⟩).2 = some "missing required value" ∧
    readValue exampleEnv (blockAttributes Block.empty) (.base "string" .String) .zero
        ⟨"newsdoc", "data.text", ["optional"]⟩ = (.zero, none) ∧
    readValue exampleEnv (blockAttributes Block.empty) (.pointer "" (.base "string" .String))
        .zero ⟨"newsdoc", "data.text", []⟩ = (.zero, none) :=
  ⟨(readValue_missing_required_iff exampleEnv (blockAttributes Block.empty)
      (.base "string" .String) .zero ⟨"newsdoc", "data.text", []⟩).1.2
      ⟨by decide, by decide, by decide⟩,
   (readValue_missing_required_iff exampleEnv (blockAttributes Block.empty)
      (.base "string" .String) .zero ⟨"newsdoc", "data.text", ["optional"]⟩).2
      (by decide) (Or.inr (by decide)),
   (readValue_missing_required_iff exampleEnv (blockAttributes Block.empty)
      (.pointer "" (.base "string" .String)) .zero ⟨"newsdoc", "data.text", []⟩).2
      (by decide) (Or.inl (by decide))⟩


/-- C6: for a pointer field to a signed integer annotated `data.<key>`, whatever the options:
when the data map of the block holds for the key a literal that `strconv.ParseInt` accepts
at the width of the field, `readValue` succeeds and the field points to a fresh integer with
that value; when the map is nil or lacks the key, `readValue` succeeds and the field stays
as it was. -/
theorem readValue_pointer_int (env : Env) (block : Block) (pname ename key : String)
    (kind : BaseKind) (field : Value) (options : List String)
    (hk : isSignedInt kind = true) :
    (∀ (data : List (String × String)) (s : String) (i : Int),
      block.Data = some data → data.lookup key = some s →
      ParseInt s (bitSize kind.toKind) = (i, none) →
      readValue env (blockAttributes block) (.pointer pname (.base ename kind)) field
        ⟨"newsdoc", "data." ++ key, options⟩ = (.ptr (.int i), none)) ∧
    ((block.Data = none ∨ ∃ data, block.Data = some data ∧ data.lookup key = none) →
      readValue env (blockAttributes block) (.pointer pname (.base ename kind)) field
        ⟨"newsdoc", "data." ++ key, options⟩ = (field, none)) := by
  constructor
  · intro data s i hd hl hp
    have ha : blockAttributes block ("data." ++ key) = (s, true) := by
      simp [blockAttributes, stringsCutPrefix_data, hd, mapIndex, hl]
    cases kind <;> simp [isSignedInt] at hk <;>
      simp [readValue, ha, Ty.Kind, BaseKind.toKind, hp, store] <;>
      simp [BaseKind.toKind] at hp <;> simp [hp]
  · intro h
    have ha : (blockAttributes block ("data." ++ key)).2 = false := by
      rcases h with h | ⟨data, hd, hl⟩
      · simp [blockAttributes, stringsCutPrefix_data, h]
      · simp [blockAttributes, stringsCutPrefix_data, hd, mapIndex, hl]
    rw [readValue_absent env (blockAttributes block) _ field
      ⟨"newsdoc", "data." ++ key, options⟩ ha]
    simp [Ty.Kind]

theorem readValue_pointer_int_witness :
    readValue exampleEnv (blockAttributes stimpy) (.pointer "" (.base "int" .Int)) .zero
        ⟨"newsdoc", "data." ++ "age", []⟩ = (.ptr (.int 3), none) ∧
    readValue exampleEnv (blockAttributes Block.empty) (.pointer "" (.base "int" .Int)) .zero
        ⟨"newsdoc", "data." ++ "age", []⟩ = (.zero, none) :=
  ⟨(readValue_pointer_int exampleEnv stimpy "" "int" "age" .Int .zero [] rfl).1
      [("age", "3")] "3" 3 rfl (by decide) (by decide),
   (readValue_pointer_int exampleEnv Block.empty "" "int" "age" .Int .zero [] rfl).2
      (Or.inl rfl)⟩

/-! ## Block-group recursion -/

theorem Elems_Append (s x : Value) : (Append s x).Elems = s.Elems ++ [x] := by
  cases s <;> simp [Append, Value.Elems]

theorem Elems_foldl_Append (xs : List Value) (s : Value) :
    (xs.foldl Append s).Elems = s.Elems ++ xs := by
  induction xs generalizing s with
  | nil => simp
  | cons x xs ih => simp [ih, Elems_Append]

theorem recurseLoop_skip (um : Callee) (pattern : List (String × String)) (fieldTy : Ty)
    (pre rest : List Block) (field : Value)
    (h : ∀ b ∈ pre, blockMatches pattern b = false) :
    recurseLoop um pattern fieldTy (pre ++ rest) field =
      recurseLoop um pattern fieldTy rest field := by
  induction pre with
  | nil => rfl
  | cons b pre ih =>
    have hb : blockMatches pattern b = false := h b (by simp)
    simp only [List.cons_append, recurseLoop, hb, Bool.not_false, ↓reduceIte]
    exact ih (fun x hx => h x (by simp [hx]))

theorem recurseLoop_none (um : Callee) (pattern : List (String × String)) (fieldTy : Ty)
    (blocks : List Block) (field : Value)
    (h : ∀ b ∈ blocks, blockMatches pattern b = false) :
    recurseLoop um pattern fieldTy blocks field = (field, fieldTy.Kind == .Slice, none) := by
  have := recurseLoop_skip um pattern fieldTy blocks [] field h
  simpa [recurseLoop] using this

theorem recurseLoop_slice (um : Callee) (pattern : List (String × String)) (name : String)
    (eType : Ty) (hE : eType.Kind ≠ .Pointer) (blocks : List Block) (field : Value)
    (hok : ∀ b ∈ blocks, blockMatches pattern b = true →
      (um b (PointerTo eType) .zero).2 = none) :
    recurseLoop um pattern (.slice name eType) blocks field =
      ((freshElems um pattern eType blocks).foldl Append field, true, none) := by
  induction blocks generalizing field with
  | nil => simp [recurseLoop, freshElems, Ty.Kind]
  | cons b rest ih =>
    have ih' := fun field => ih field (fun x hx => hok x (by simp [hx]))
    cases hb : blockMatches pattern b with
    | false =>
      simp only [recurseLoop, hb, Bool.not_false, ↓reduceIte, ih']
      simp [freshElems, hb]
    | true =>
      have h2 := hok b (by simp) hb
      rcases hu : um b (PointerTo eType) .zero with ⟨target, err⟩
      rw [hu] at h2
      simp only at h2
      subst h2
      simp only [recurseLoop, hb, Bool.not_true, Bool.false_eq_true, ↓reduceIte, hE, hu, ih']
      simp [freshElems, hb, hu]

/-- C1: for a slice field whose element type is not a pointer, when the recursive unmarshal
of every block that passes the filter succeeds, `recurse` succeeds and the field afterwards
holds its previous elements followed by one element for each block that passes the filter,
in the order of the blocks, each unmarshalled from that block into a fresh value of the
element type; when no block passes, the field is left as it was. -/
theorem recurse_slice_appends (um : Callee) (blocks : List Block) (name : String)
    (eType : Ty) (field : Value) (ndtag : Tag) (hE : eType.Kind ≠ .Pointer)
    (hok : ∀ b ∈ blocks, blockMatches (buildPattern ndtag.Options) b = true →
      (um b (PointerTo eType) .zero).2 = none) :
    (recurse um blocks (.slice name eType) field ndtag).2 = (true, none) ∧
    (recurse um blocks (.slice name eType) field ndtag).1.Elems =
      field.Elems ++ freshElems um (buildPattern ndtag.Options) eType blocks ∧
    (freshElems um (buildPattern ndtag.Options) eType blocks = [] →
      (recurse um blocks (.slice name eType) field ndtag).1 = field) := by
  have h := recurseLoop_slice um (buildPattern ndtag.Options) name eType hE blocks field hok
  unfold recurse
  rw [h]
  refine ⟨rfl, Elems_foldl_Append _ _, ?_⟩
  intro he
  simp [he]

theorem recurse_slice_appends_witness :
    (recurse (callee exampleEnv 1) [ren, Block.empty, stimpy]
      (.slice "" (.base "exampleLink" .Struct)) .zero
      ⟨"newsdoc", "links", ["rel=associate"]⟩).2 = (true, none) ∧
    (recurse (callee exampleEnv 1) [ren, Block.empty, stimpy]
      (.slice "" (.base "exampleLink" .Struct)) .zero
      ⟨"newsdoc", "links", ["rel=associate"]⟩).1.Elems =
      Value.zero.Elems ++
        [.struct [.str "dog/chihuahua", .str "Ren", .zero],
         .struct [.str "cat/manx", .str "Stimpy", .ptr (.int 3)]] :=
  have h := recurse_slice_appends (callee exampleEnv 1) [ren, Block.empty, stimpy] ""
    (.base "exampleLink" .Struct) .zero ⟨"newsdoc", "links", ["rel=associate"]⟩
    (by decide) (by decide)
  ⟨h.1, h.2.1.trans (by decide)⟩

/-! ## The filter -/

theorem lookup_cons_ne (e : String × String) (m : List (String × String)) (k : String)
    (h : k ≠ e.1) : List.lookup k (e :: m) = List.lookup k m := by
  rcases e with ⟨a, b⟩
  have hb : (k == a) = false := by simpa using h
  simp [List.lookup, hb]

theorem lookup_cons_eq (v : String) (m : List (String × String)) (k : String) :
    List.lookup k ((k, v) :: m) = some v := by
  simp [List.lookup]

theorem lookup_mapSet (m : List (String × String)) (k v k' : String) :
    (mapSet m k v).lookup k' = if k' = k then some v else m.lookup k' := by
  induction m with
  | nil =>
    by_cases h : k' = k
    · subst h
      simp [mapSet, lookup_cons_eq]
    · simp [mapSet, h, lookup_cons_ne (k, v) [] k' h]
  | cons e m ih =>
    rcases e with ⟨a, b⟩
    by_cases h1 : a = k
    · subst h1
      by_cases h2 : k' = a
      · subst h2
        simp [mapSet, lookup_cons_eq]
      · simp [mapSet, h2, lookup_cons_ne (a, v) m k' h2, lookup_cons_ne (a, b) m k' h2]
    · by_cases h2 : k' = a
      · subst h2
        have h3 : ¬ k' = k := h1
        simp [mapSet, h1, h3, lookup_cons_eq]
      · simp [mapSet, h1, lookup_cons_ne (a, b) _ k' h2, ih]

theorem keys_mapSet (m : List (String × String)) (k v k' : String) :
    k' ∈ (mapSet m k v).map Prod.fst ↔ k' = k ∨ k' ∈ m.map Prod.fst := by
  induction m with
  | nil => simp [mapSet]
  | cons e m ih =>
    rcases e with ⟨a, b⟩
    by_cases h1 : a = k
    · subst h1
      simp [mapSet]
    · simp only [mapSet, h1, ↓reduceIte, List.map_cons, List.mem_cons, ih]
      tauto

theorem nodup_mapSet (m : List (String × String)) (k v : String)
    (h : (m.map Prod.fst).Nodup) : ((mapSet m k v).map Prod.fst).Nodup := by
  induction m with
  | nil => simp [mapSet]
  | cons e m ih =>
    rcases e with ⟨a, b⟩
    simp only [List.map_cons, List.nodup_cons] at h
    by_cases h1 : a = k
    · subst h1
      simpa [mapSet] using h
    · simp only [mapSet, h1, ↓reduceIte, List.map_cons, List.nodup_cons]
      refine ⟨?_, ih h.2⟩
      rw [keys_mapSet]
      rintro (h2 | h2)
      · exact h1 h2
      · exact h.1 h2

theorem mem_iff_lookup (m : List (String × String)) (h : (m.map Prod.fst).Nodup)
    (k v : String) : (k, v) ∈ m ↔ m.lookup k = some v := by
  induction m with
  | nil => simp
  | cons e m ih =>
    rcases e with ⟨a, b⟩
    simp only [List.map_cons, List.nodup_cons] at h
    by_cases h1 : k = a
    · subst h1
      simp only [List.mem_cons, Prod.mk.injEq, true_and, List.lookup, beq_self_eq_true,
        Option.some.injEq]
      constructor
      · rintro (h2 | h2)
        · exact h2.symm
        · exact absurd (List.mem_map_of_mem Prod.fst h2) h.1
      · intro h2
        exact Or.inl h2.symm
    · have : (k == a) = false := by simpa using h1
      simp [List.lookup, this, h1, ih h.2]

theorem buildPattern_aux (options : List String) (m : List (String × String)) (k : String)
    (h : (m.map Prod.fst).Nodup) :
    ((options.foldl (fun pattern opt => mapSet pattern (stringsCut opt "=").1
        (stringsCut opt "=").2.1) m).map Prod.fst).Nodup ∧
    (options.foldl (fun pattern opt => mapSet pattern (stringsCut opt "=").1
        (stringsCut opt "=").2.1) m).lookup k =
      match lastValue options k with
      | some v => some v
      | none => m.lookup k := by
  induction options generalizing m with
  | nil => exact ⟨h, rfl⟩
  | cons opt rest ih =>
    have := ih (mapSet m (stringsCut opt "=").1 (stringsCut opt "=").2.1)
      (nodup_mapSet _ _ _ h)
    refine ⟨this.1, ?_⟩
    simp only [List.foldl_cons, this.2, lookup_mapSet, lastValue]
    cases lastValue rest k with
    | some v => rfl
    | none =>
      by_cases h1 : (stringsCut opt "=").1 = k
      · simp [h1]
      · have h2 : ¬ k = (stringsCut opt "=").1 := fun e => h1 e.symm
        simp [h1, h2]

theorem buildPattern_spec (options : List String) :
    ((buildPattern options).map Prod.fst).Nodup ∧
    ∀ k, (buildPattern options).lookup k = lastValue options k := by
  have h := fun k => buildPattern_aux options [] k (by simp)
  refine ⟨(h "").1, fun k => ?_⟩
  have := (h k).2
  unfold buildPattern
  rw [this]
  cases lastValue options k <;> rfl

theorem blockMatches_iff_lastValue (options : List String) (block : Block) :
    blockMatches (buildPattern options) block = true ↔
      ∀ k v, lastValue options k = some v → (blockAttributes block k).1 = v := by
  have hs := buildPattern_spec options
  simp only [blockMatches, List.all_eq_true, beq_iff_eq, Prod.forall]
  constructor
  · intro h k v hv
    exact h k v ((mem_iff_lookup _ hs.1 k v).2 ((hs.2 k).trans hv))
  · intro h k v hm
    exact h k v ((hs.2 k).symm.trans ((mem_iff_lookup _ hs.1 k v).1 hm))

/-- C7, as the code has it: `recurse` lets a block pass exactly when, for every key of the
option list, the value that the block's resolver gives for the key (the empty string when
the attribute is absent) is the value of the last option with that key; a block that does
not pass is skipped.  Whether the attribute exists is not looked at, and of the options that
repeat a key the last one counts. -/
theorem recurse_matches_iff (options : List String) (block : Block) :
    (blockMatches (buildPattern options) block = true ↔
      ∀ k v, lastValue options k = some v → (blockAttributes block k).1 = v) ∧
    (blockMatches (buildPattern options) block = false →
      ∀ (um : Callee) (rest : List Block) (fieldTy : Ty) (field : Value) (key name : String),
        recurse um (block :: rest) fieldTy field ⟨key, name, options⟩ =
          recurse um rest fieldTy field ⟨key, name, options⟩) := by
  refine ⟨blockMatches_iff_lastValue options block, ?_⟩
  intro h um rest fieldTy field key name
  simp [recurse, recurseLoop, h]

theorem recurse_matches_iff_witness :
    recurse (callee exampleEnv 1) [Block.empty, stimpy]
        (.slice "" (.base "exampleLink" .Struct)) .zero
        ⟨"newsdoc", "links", ["rel=associate"]⟩ =
      recurse (callee exampleEnv 1) [stimpy]
        (.slice "" (.base "exampleLink" .Struct)) .zero
        ⟨"newsdoc", "links", ["rel=associate"]⟩ :=
  (recurse_matches_iff ["rel=associate"] Block.empty).2 (by decide) _ _ _ _ _ _

/-- C7 as stated fails: with the options `rel=a,rel=b` a block whose `rel` is `b` passes the
filter of `recurse` although the option `rel=a` does not hold, and with the option `data.x=`
a block without data passes although it has no attribute `data.x`. -/
theorem recurse_matches_counterexample :
    (blockMatches (buildPattern ["rel=a", "rel=b"]) { Block.empty with Rel := "b" } = true ∧
      matchesAsSpecified ["rel=a", "rel=b"] { Block.empty with Rel := "b" } = false) ∧
    (blockMatches (buildPattern ["data.x="]) Block.empty = true ∧
      matchesAsSpecified ["data.x="] Block.empty = false) := by
  decide

/-! ## Fields annotated with a block group -/

theorem firstChar_append (p x : String) (c : Char) (cs : List Char) (hp : p.data = c :: cs) :
    (p ++ x).data.head? = some c := by
  simp [String.data_append, hp]

theorem ne_of_firstChar (a b : String) (c d : Char) (ha : a.data.head? = some c)
    (hb : b.data.head? = some d) (h : c ≠ d) : a ≠ b := by
  intro e
  subst e
  rw [ha] at hb
  exact h (Option.some.inj hb)

theorem blocksError_ne_missing (tName fName err : String) :
    "failed to unmarshal blocks for " ++ tName ++ "." ++ fName ++ ": " ++ err ≠
      "missing required block for " ++ tName ++ "." ++ fName := by
  apply ne_of_firstChar _ _ 'f' 'm' _ _ (by decide)
  · simp [String.data_append]
  · simp [String.data_append]

theorem unmarshalField_group (env : Env) (um : Callee) (tName : String) (blocks : BlockFunc)
    (attributes : AttrFunc) (field : StructField) (fieldRef : Value) (ndtag : Tag)
    (h : groupField field ndtag) :
    unmarshalField env um tName blocks attributes field fieldRef =
      match recurse um (blocks ndtag.Name) field.Typ fieldRef ndtag with
      | (fieldRef', _, some err) =>
        (fieldRef', some ("failed to unmarshal blocks for " ++ tName ++ "." ++ field.Name
          ++ ": " ++ err))
      | (fieldRef', ok, none) =>
        if !ok && field.Typ.Kind != .Pointer then
          (fieldRef', some ("missing required block for " ++ tName ++ "." ++ field.Name))
        else (fieldRef', none) := by
  obtain ⟨⟨tags, h1, h2⟩, h3⟩ := h
  simp only [unmarshalField, h1, h2, h3, ↓reduceIte]

theorem recurseLoop_first (um : Callee) (pattern : List (String × String)) (fieldTy : Ty)
    (pre post : List Block) (b : Block) (field : Value)
    (hpre : ∀ x ∈ pre, blockMatches pattern x = false) (hb : blockMatches pattern b = true) :
    recurseLoop um pattern fieldTy (pre ++ b :: post) field =
      match fieldTy with
      | .base _ .Struct =>
        match um b (PointerTo fieldTy) field with
        | (field', some err) => (field', false, some err)
        | (field', none) => (field', true, none)
      | .pointer _ elem =>
        match um b (PointerTo elem) .zero with
        | (target, some err) => (.ptr target, false, some err)
        | (target, none) => (.ptr target, true, none)
      | .slice _ eType =>
        if eType.Kind = .Pointer then
          (field, false, some "slice element  cannot be a pointer")
        else
          match um b (PointerTo eType) .zero with
          | (_, some err) => (field, false, some err)
          | (target, none) => recurseLoop um pattern fieldTy post (Append field target)
      | .base name _ => (field, false, some ("invalid field type " ++ Quote name)) := by
  rw [recurseLoop_skip um pattern fieldTy pre (b :: post) field hpre]
  simp only [recurseLoop, hb, Bool.not_true, Bool.false_eq_true, ↓reduceIte]

/-- Decomposition of a list at its first element that passes a test. -/
theorem exists_first (p : Block → Bool) (l : List Block) (h : l.any p = true) :
    ∃ pre b post, l = pre ++ b :: post ∧ (∀ x ∈ pre, p x = false) ∧ p b = true := by
  induction l with
  | nil => simp at h
  | cons a l ih =>
    cases ha : p a with
    | true => exact ⟨[], a, l, rfl, by simp, ha⟩
    | false =>
      have : l.any p = true := by simpa [ha] using h
      obtain ⟨pre, b, post, h1, h2, h3⟩ := ih this
      refine ⟨a :: pre, b, post, by simp [h1], ?_, h3⟩
      intro x hx
      rcases List.mem_cons.1 hx with hx | hx
      · exact hx ▸ ha
      · exact h2 x hx

theorem lastValue_some_mem (options : List String) (k v : String)
    (h : lastValue options k = some v) :
    ∃ opt ∈ options, (stringsCut opt "=").1 = k := by
  induction options generalizing v with
  | nil => simp [lastValue] at h
  | cons opt rest ih =>
    simp only [lastValue] at h
    cases hr : lastValue rest k with
    | some w =>
      obtain ⟨o, ho, hk⟩ := ih w hr
      exact ⟨o, by simp [ho], hk⟩
    | none =>
      rw [hr] at h
      by_cases hk : (stringsCut opt "=").1 = k
      · exact ⟨opt, by simp, hk⟩
      · simp [hk] at h

theorem lastValue_insert_optional (o1 o2 : List String) (k : String) :
    lastValue (o1 ++ "optional" :: o2) k =
      match lastValue o2 k with
      | some v => some v
      | none => if k = "optional" then some "" else lastValue o1 k := by
  induction o1 with
  | nil =>
    have hc : stringsCut "optional" "=" = ("optional", "", false) := by decide
    simp only [List.nil_append, lastValue, hc]
    cases lastValue o2 k with
    | some v => rfl
    | none =>
      by_cases hk : k = "optional"
      · simp [hk]
      · have : ¬ "optional" = k := fun e => hk e.symm
        simp [hk, this]
  | cons opt rest ih =>
    show lastValue (opt :: (rest ++ "optional" :: o2)) k = _
    simp only [lastValue]
    rw [ih]
    cases lastValue o2 k with
    | some v => rfl
    | none =>
      by_cases hk : k = "optional"
      · simp [hk]
      · simp [hk]

theorem lastValue_append (o1 o2 : List String) (k : String) :
    lastValue (o1 ++ o2) k =
      match lastValue o2 k with
      | some v => some v
      | none => lastValue o1 k := by
  induction o1 with
  | nil => cases h : lastValue o2 k <;> simp [lastValue, h]
  | cons opt rest ih =>
    show lastValue (opt :: (rest ++ o2)) k = _
    simp only [lastValue]
    rw [ih]
    cases lastValue o2 k <;> rfl

theorem blockAttributes_optional (block : Block) :
    blockAttributes block "optional" = ("", false) := by
  simp [blockAttributes, stringsCutPrefix]

theorem blockMatches_insert_optional (o1 o2 : List String) (block : Block)
    (h : ∀ opt ∈ o1 ++ o2, (stringsCut opt "=").1 ≠ "optional") :
    blockMatches (buildPattern (o1 ++ "optional" :: o2)) block =
      blockMatches (buildPattern (o1 ++ o2)) block := by
  have hn : ∀ (o : List String), (∀ opt ∈ o, opt ∈ o1 ++ o2) →
      lastValue o "optional" = none := by
    intro o ho
    cases hl : lastValue o "optional" with
    | none => rfl
    | some v =>
      obtain ⟨opt, hm, hk⟩ := lastValue_some_mem o _ v hl
      exact absurd hk (h opt (ho opt hm))
  have h1 := hn o1 (fun opt ho => by simp [ho])
  have h2 := hn o2 (fun opt ho => by simp [ho])
  rw [Bool.eq_iff_iff, blockMatches_iff_lastValue, blockMatches_iff_lastValue]
  constructor
  · intro hf k v hv
    apply hf k v
    rw [lastValue_insert_optional]
    rw [lastValue_append] at hv
    by_cases hk : k = "optional"
    · subst hk
      simp [h1, h2] at hv
    · cases h3 : lastValue o2 k with
      | some w => simpa [h3] using hv
      | none => simpa [h3, hk] using hv
  · intro hf k v hv
    rw [lastValue_insert_optional] at hv
    by_cases hk : k = "optional"
    · subst hk
      simp only [h2, ↓reduceIte, Option.some.injEq] at hv
      rw [blockAttributes_optional, ← hv]
    · apply hf k v
      rw [lastValue_append]
      cases h3 : lastValue o2 k with
      | some w => simpa [h3] using hv
      | none => simpa [h3, hk] using hv

/-- C4: for a field annotated with a block group whose type is a struct: when no block of
the group passes the filter, `unmarshal` fails at the field with "missing required block for"
the field, whatever the options (`optional` included); when a block passes, the field is
unmarshalled from the first such block and the error, if any, is the one of that recursive
call, not the missing block.  Adding `optional` to options that have no other option with
that key does not change which blocks pass. -/
theorem unmarshalField_required_block (env : Env) (um : Callee) (tName : String)
    (blocks : BlockFunc) (attributes : AttrFunc) (field : StructField) (fieldRef : Value)
    (ndtag : Tag) (sName : String) (hG : groupField field ndtag)
    (hT : field.Typ = .base sName .Struct) :
    ((∀ b ∈ blocks ndtag.Name, blockMatches (buildPattern ndtag.Options) b = false) →
      unmarshalField env um tName blocks attributes field fieldRef =
        (fieldRef, some ("missing required block for " ++ tName ++ "." ++ field.Name))) ∧
    (∀ pre b post, blocks ndtag.Name = pre ++ b :: post →
      (∀ x ∈ pre, blockMatches (buildPattern ndtag.Options) x = false) →
      blockMatches (buildPattern ndtag.Options) b = true →
      unmarshalField env um tName blocks attributes field fieldRef =
        ((um b (PointerTo field.Typ) fieldRef).1,
          (um b (PointerTo field.Typ) fieldRef).2.map (fun err =>
            "failed to unmarshal blocks for " ++ tName ++ "." ++ field.Name ++ ": " ++ err)) ∧
      (unmarshalField env um tName blocks attributes field fieldRef).2 ≠
        some ("missing required block for " ++ tName ++ "." ++ field.Name)) ∧
    (∀ (o1 o2 : List String) (b : Block),
      (∀ opt ∈ o1 ++ o2, (stringsCut opt "=").1 ≠ "optional") →
      blockMatches (buildPattern (o1 ++ "optional" :: o2)) b =
        blockMatches (buildPattern (o1 ++ o2)) b) := by
  have hu := unmarshalField_group env um tName blocks attributes field fieldRef ndtag hG
  rcases field with ⟨fName, fTyp, fTag⟩
  simp only at hT
  subst hT
  simp only at hu ⊢
  refine ⟨?_, ?_, fun o1 o2 b h => blockMatches_insert_optional o1 o2 b h⟩
  · intro hno
    rw [hu, recurse, recurseLoop_none um _ _ _ _ hno]
    simp [Ty.Kind, BaseKind.toKind]
  · intro pre b post hb hpre hm
    have hr := recurseLoop_first um (buildPattern ndtag.Options) (.base sName .Struct) pre
      post b fieldRef hpre hm
    simp only at hr
    have he : unmarshalField env um tName blocks attributes
        ⟨fName, .base sName .Struct, fTag⟩ fieldRef =
        ((um b (PointerTo (.base sName .Struct)) fieldRef).1,
          (um b (PointerTo (.base sName .Struct)) fieldRef).2.map (fun err =>
            "failed to unmarshal blocks for " ++ tName ++ "." ++ fName ++ ": " ++ err)) := by
      rw [hu, recurse, hb, hr]
      rcases hc : um b (PointerTo (.base sName .Struct)) fieldRef with ⟨v, _ | e⟩ <;> simp
    refine ⟨he, ?_⟩
    rw [he]
    cases (um b (PointerTo (.base sName .Struct)) fieldRef).2 with
    | none => simp
    | some e =>
      simp only [Option.map_some', ne_eq, Option.some.injEq]
      exact blocksError_ne_missing tName fName e

theorem unmarshalField_required_block_witness :
    unmarshalField exampleEnv (callee exampleEnv 1) "" (documentBlocks {})
        (documentAttributes {}) metaField .zero =
      (.zero, some "missing required block for .Meta") ∧
    unmarshalField exampleEnv (callee exampleEnv 1) "" (documentBlocks exampleDoc)
        (documentAttributes exampleDoc) metaField .zero =
      (.struct [.ptr (.ext "2006-01-02 2023-08-13"),
          .ext "2006-01-02T15:04:05Z07:00 2023-08-21T14:34:47+02:00", .bool true], none) :=
  have h := unmarshalField_required_block exampleEnv (callee exampleEnv 1) ""
  ⟨((h (documentBlocks {}) (documentAttributes {}) metaField .zero
        ⟨"newsdoc", "meta", ["type=example/meta"]⟩ "exampleBlock"
        ⟨⟨_, rfl, by decide⟩, by decide⟩ rfl).1 (by decide)).trans (by decide),
   ((h (documentBlocks exampleDoc) (documentAttributes exampleDoc) metaField .zero
        ⟨"newsdoc", "meta", ["type=example/meta"]⟩ "exampleBlock"
        ⟨⟨_, rfl, by decide⟩, by decide⟩ rfl).2.1 [] exampleMeta [] rfl (by decide)
        (by decide)).1.trans (by decide)⟩

/-- C5: for a field annotated with a block group whose type is a pointer: when no block of
the group passes the filter, `unmarshal` goes on without an error and the field stays as it
was; when a block passes, the field is set to a pointer to a fresh value unmarshalled from
the first such block, and the blocks after it play no part in the result. -/
theorem unmarshalField_optional_block (env : Env) (um : Callee) (tName : String)
    (blocks : BlockFunc) (attributes : AttrFunc) (field : StructField) (fieldRef : Value)
    (ndtag : Tag) (pName : String) (elem : Ty) (hG : groupField field ndtag)
    (hT : field.Typ = .pointer pName elem) :
    ((∀ b ∈ blocks ndtag.Name, blockMatches (buildPattern ndtag.Options) b = false) →
      unmarshalField env um tName blocks attributes field fieldRef = (fieldRef, none)) ∧
    (∀ pre b post, blocks ndtag.Name = pre ++ b :: post →
      (∀ x ∈ pre, blockMatches (buildPattern ndtag.Options) x = false) →
      blockMatches (buildPattern ndtag.Options) b = true →
      unmarshalField env um tName blocks attributes field fieldRef =
        (.ptr (um b (PointerTo elem) .zero).1,
          (um b (PointerTo elem) .zero).2.map (fun err =>
            "failed to unmarshal blocks for " ++ tName ++ "." ++ field.Name ++ ": "
              ++ err))) := by
  have hu := unmarshalField_group env um tName blocks attributes field fieldRef ndtag hG
  rcases field with ⟨fName, fTyp, fTag⟩
  simp only at hT
  subst hT
  simp only at hu ⊢
  constructor
  · intro hno
    rw [hu, recurse, recurseLoop_none um _ _ _ _ hno]
    simp [Ty.Kind]
  · intro pre b post hb hpre hm
    have hr := recurseLoop_first um (buildPattern ndtag.Options) (.pointer pName elem) pre
      post b fieldRef hpre hm
    simp only at hr
    rw [hu, recurse, hb, hr]
    rcases hc : um b (PointerTo elem) .zero with ⟨v, _ | e⟩ <;> simp [Ty.Kind]

theorem unmarshalField_optional_block_witness :
    unmarshalField exampleEnv (callee exampleEnv 1) "" (documentBlocks exampleDoc)
        (documentAttributes exampleDoc) internalDescription .zero = (.zero, none) ∧
    unmarshalField exampleEnv (callee exampleEnv 1) ""
        (documentBlocks { Meta := [description "public" "a", description "internal" "b",
          description "internal" "c"] })
        (documentAttributes {}) internalDescription .zero =
      (.ptr (.struct [.str "internal", .str "b"]), none) :=
  have h := unmarshalField_optional_block exampleEnv (callee exampleEnv 1) ""
  ⟨(h (documentBlocks exampleDoc) (documentAttributes exampleDoc) internalDescription .zero
        ⟨"newsdoc", "meta", ["type=core/description", "role=internal"]⟩ ""
        (.base "descriptionBlock" .Struct) ⟨⟨_, rfl, by decide⟩, by decide⟩ rfl).1
        (by decide),
   ((h (documentBlocks { Meta := [description "public" "a", description "internal" "b",
          description "internal" "c"] }) (documentAttributes {}) internalDescription .zero
        ⟨"newsdoc", "meta", ["type=core/description", "role=internal"]⟩ ""
        (.base "descriptionBlock" .Struct) ⟨⟨_, rfl, by decide⟩, by decide⟩ rfl).2
        [description "public" "a"] (description "internal" "b")
        [description "internal" "c"] rfl (by decide) (by decide)).trans (by decide)⟩

/-! ## The loop over the fields -/

theorem unmarshal_succ (env : Env) (fuel : Nat) (blocks : BlockFunc) (attributes : AttrFunc)
    (t : Ty) (o : Value) :
    unmarshal env (fuel + 1) blocks attributes t o =
      unmarshalWith env (callee env fuel) blocks attributes t o := rfl

theorem unmarshalFields_ok_mem (step : StructField → Value → Value × Option String)
    (fields : List StructField) (values : List Value)
    (h : (unmarshalFields step fields values).2 = none) :
    ∀ f ∈ fields, ∃ v, (step f v).2 = none := by
  induction fields generalizing values with
  | nil => simp
  | cons f rest ih =>
    intro g hg
    rcases hs : step f (values.headD .zero) with ⟨x, _ | e⟩
    · rw [unmarshalFields, hs] at h
      rcases List.mem_cons.1 hg with hg | hg
      · exact ⟨values.headD .zero, by rw [hg, hs]⟩
      · exact ih values.tail h g hg
    · rw [unmarshalFields, hs] at h
      simp at h

/-- C2, as the code has it: for a field annotated with a block group whose type is a slice
of pointers, `unmarshal` fails at the field with "slice element  cannot be a pointer",
wrapped with the name of the field, exactly when a block of the group passes the filter;
when none does, as in a document without blocks, the field is left as it was and no error
is raised.  Hence `UnmarshalDocument` fails on every document that has such a block. -/
theorem unmarshalField_pointer_elements (env : Env) (um : Callee) (tName : String)
    (blocks : BlockFunc) (attributes : AttrFunc) (field : StructField) (fieldRef : Value)
    (ndtag : Tag) (sName : String) (elem : Ty) (hG : groupField field ndtag)
    (hT : field.Typ = .slice sName elem) (hE : elem.Kind = .Pointer) :
    unmarshalField env um tName blocks attributes field fieldRef =
      (if (blocks ndtag.Name).any (blockMatches (buildPattern ndtag.Options)) then
        (fieldRef, some ("failed to unmarshal blocks for " ++ tName ++ "." ++ field.Name
          ++ ": " ++ "slice element  cannot be a pointer"))
      else (fieldRef, none)) ∧
    (∀ (doc : Document) (eName : String) (o : Value), field ∈ env.fields eName →
      (documentBlocks doc ndtag.Name).any (blockMatches (buildPattern ndtag.Options)) = true →
      (UnmarshalDocument env doc (.pointer tName (.base eName .Struct)) o).2 ≠ none) := by
  have key : ∀ (um : Callee) (blocks : BlockFunc) (attributes : AttrFunc) (fieldRef : Value),
      unmarshalField env um tName blocks attributes field fieldRef =
      (if (blocks ndtag.Name).any (blockMatches (buildPattern ndtag.Options)) then
        (fieldRef, some ("failed to unmarshal blocks for " ++ tName ++ "." ++ field.Name
          ++ ": " ++ "slice element  cannot be a pointer"))
      else (fieldRef, none)) := by
    intro um blocks attributes fieldRef
    have hu := unmarshalField_group env um tName blocks attributes field fieldRef ndtag hG
    rcases field with ⟨fName, fTyp, fTag⟩
    simp only at hT
    subst hT
    simp only at hu ⊢
    cases ha : (blocks ndtag.Name).any (blockMatches (buildPattern ndtag.Options)) with
    | false =>
      have hno : ∀ b ∈ blocks ndtag.Name,
          blockMatches (buildPattern ndtag.Options) b = false := by
        intro b hb
        cases hm : blockMatches (buildPattern ndtag.Options) b with
        | false => rfl
        | true =>
          have : (blocks ndtag.Name).any (blockMatches (buildPattern ndtag.Options)) = true :=
            List.any_eq_true.2 ⟨b, hb, hm⟩
          rw [ha] at this
          exact absurd this (by decide)
      rw [hu, recurse, recurseLoop_none um _ _ _ _ hno]
      simp [Ty.Kind]
    | true =>
      obtain ⟨pre, b, post, h1, h2, h3⟩ := exists_first _ _ ha
      have hr := recurseLoop_first um (buildPattern ndtag.Options) (.slice sName elem) pre
        post b fieldRef h2 h3
      simp only [hE, ↓reduceIte] at hr
      rw [hu, recurse, h1, hr]
      simp
  refine ⟨key um blocks attributes fieldRef, ?_⟩
  intro doc eName o hf hany hnone
  unfold UnmarshalDocument Document.depth at hnone
  rw [unmarshal_succ] at hnone
  simp only [unmarshalWith] at hnone
  obtain ⟨v, hv⟩ := unmarshalFields_ok_mem _ _ _ hnone field hf
  rw [key, hany] at hv
  simp at hv

theorem unmarshalField_pointer_elements_witness :
    unmarshalField exampleEnv (callee exampleEnv 1) "" (documentBlocks exampleDoc)
        (documentAttributes exampleDoc) pointerLinksField .zero =
      (.zero, some "failed to unmarshal blocks for .Links: slice element  cannot be a pointer") ∧
    (UnmarshalDocument exampleEnv exampleDoc (.pointer "" (.base "pointerLinks" .Struct))
      .zero).2 ≠ none :=
  have h := unmarshalField_pointer_elements exampleEnv (callee exampleEnv 1) ""
    (documentBlocks exampleDoc) (documentAttributes exampleDoc) pointerLinksField .zero
    ⟨"newsdoc", "links", ["rel=associate"]⟩ "" (.pointer "" (.base "exampleLink" .Struct))
    ⟨⟨_, rfl, by decide⟩, by decide⟩ rfl rfl
  ⟨h.1.trans (by decide), h.2 exampleDoc "pointerLinks" .zero (by simp [exampleEnv, pointerLinksField]) (by decide)⟩

/-- C2 as stated fails: on the document without blocks, `UnmarshalDocument` into a struct
whose only field is `Links []*exampleLink`, annotated `links,rel=associate`, succeeds. -/
theorem UnmarshalDocument_pointer_elements_counterexample :
    UnmarshalDocument exampleEnv {} (.pointer "" (.base "pointerLinks" .Struct)) .zero =
      (.struct [.zero], none) := by
  decide

theorem unmarshalFields_skip (step : StructField → Value → Value × Option String)
    (f : StructField) (hskip : ∀ v, step f v = (v, none)) (pre post : List StructField)
    (vs1 : List Value) (x : Value) (vs2 : List Value) (hlen : vs1.length = pre.length) :
    unmarshalFields step (pre ++ f :: post) (vs1 ++ x :: vs2) =
      ((unmarshalFields step (pre ++ post) (vs1 ++ vs2)).1.take pre.length ++
          x :: (unmarshalFields step (pre ++ post) (vs1 ++ vs2)).1.drop pre.length,
        (unmarshalFields step (pre ++ post) (vs1 ++ vs2)).2) := by
  induction pre generalizing vs1 with
  | nil =>
    have : vs1 = [] := List.length_eq_zero.1 (by simpa using hlen)
    subst this
    simp [unmarshalFields, hskip]
  | cons g pre ih =>
    rcases vs1 with _ | ⟨y, vs1⟩
    · simp at hlen
    · have hl : vs1.length = pre.length := by simpa using hlen
      have ih' := ih vs1 hl
      have e1 : ∀ (fs : List StructField) (vs : List Value),
          unmarshalFields step (g :: fs) (y :: vs) =
            match step g y with
            | (y', some err) => (y' :: vs, some err)
            | (y', none) =>
              (y' :: (unmarshalFields step fs vs).1, (unmarshalFields step fs vs).2) := by
        intro fs vs
        rw [unmarshalFields]
        rfl
      show unmarshalFields step (g :: (pre ++ f :: post)) (y :: (vs1 ++ x :: vs2)) =
        ((unmarshalFields step (g :: (pre ++ post)) (y :: (vs1 ++ vs2))).1.take
            (pre.length + 1) ++
          x :: (unmarshalFields step (g :: (pre ++ post)) (y :: (vs1 ++ vs2))).1.drop
            (pre.length + 1),
          (unmarshalFields step (g :: (pre ++ post)) (y :: (vs1 ++ vs2))).2)
      rw [e1, e1]
      rcases hs : step g y with ⟨y', _ | e⟩
      · simp only [ih', List.take_succ_cons, List.drop_succ_cons, List.cons_append]
      · simp [hl]

/-- What the code does with a nil tag set: `unmarshal` skips a field for whose declaration
`structtag.Parse` returns nil: the field keeps its value, and the other fields and the error
are those of the struct without that field.  A field whose tag set is not nil and has no
`newsdoc` key makes `unmarshal` fail with "invalid newsdoc tag for" the field. -/
theorem unmarshal_skips_nil_tags (env : Env) (fuel : Nat) (blocks : BlockFunc)
    (attributes : AttrFunc) (tName eName eName' : String) (pre post : List StructField)
    (f : StructField) (vs1 : List Value) (x : Value) (vs2 : List Value)
    (hf : f.Tag = .ok none) (h1 : env.fields eName = pre ++ f :: post)
    (h2 : env.fields eName' = pre ++ post) (hlen : vs1.length = pre.length) :
    unmarshal env (fuel + 1) blocks attributes (.pointer tName (.base eName .Struct))
        (.struct (vs1 ++ x :: vs2)) =
      (.struct
        ((unmarshal env (fuel + 1) blocks attributes (.pointer tName (.base eName' .Struct))
            (.struct (vs1 ++ vs2))).1.Fields.take pre.length ++
          x :: (unmarshal env (fuel + 1) blocks attributes
            (.pointer tName (.base eName' .Struct)) (.struct (vs1 ++ vs2))).1.Fields.drop
              pre.length),
        (unmarshal env (fuel + 1) blocks attributes (.pointer tName (.base eName' .Struct))
            (.struct (vs1 ++ vs2))).2) ∧
    (∀ (g : StructField) (tags : List Tag) (v : Value), g.Tag = .ok (some tags) →
      (∀ t ∈ tags, t.Key ≠ "newsdoc") →
      unmarshalField env (callee env fuel) tName blocks attributes g v =
        (v, some ("invalid newsdoc tag for " ++ tName ++ "." ++ g.Name ++ ": "
          ++ "tag does not exist"))) := by
  constructor
  · have hskip : ∀ v, unmarshalField env (callee env fuel) tName blocks attributes f v =
        (v, none) := by
      intro v
      simp [unmarshalField, hf]
    simp only [unmarshal_succ, unmarshalWith, h1, h2, Value.Fields]
    rw [unmarshalFields_skip _ f hskip pre post vs1 x vs2 hlen]
  · intro g tags v hg hk
    have hget : Tags.Get tags "newsdoc" = .error "tag does not exist" := by
      have : tags.find? (fun t => t.Key == "newsdoc") = none := by
        rw [List.find?_eq_none]
        intro t ht
        simpa using hk t ht
      simp [Tags.Get, this]
    simp [unmarshalField, hg, hget]

theorem unmarshal_skips_nil_tags_witness :
    unmarshal declEnv 1 (documentBlocks titledDoc) (documentAttributes titledDoc)
        (.pointer "" (.base "tagged" .Struct)) (.struct ([.zero] ++ .str "kept" :: [.zero])) =
      (.struct [.str "A title", .str "kept", .str "core/article"], none) ∧
    unmarshalField declEnv (callee declEnv 0) "" (documentBlocks titledDoc)
        (documentAttributes titledDoc)
        ⟨"Title", .base "string" .String, .ok (some [⟨"json", "title", []⟩])⟩ .zero =
      (.zero, some "invalid newsdoc tag for .Title: tag does not exist") :=
  have h := unmarshal_skips_nil_tags declEnv 0 (documentBlocks titledDoc)
    (documentAttributes titledDoc) "" "tagged" "plain"
    [⟨"Title", .base "string" .String, .ok (some [⟨"newsdoc", "title", []⟩])⟩]
    [⟨"Kind", .base "string" .String, .ok (some [⟨"newsdoc", "type", []⟩])⟩]
    ⟨"Note", .base "string" .String, .ok none⟩ [.zero] (.str "kept") [.zero]
    rfl rfl rfl rfl
  ⟨h.1.trans (by decide),
   (h.2 ⟨"Title", .base "string" .String, .ok (some [⟨"json", "title", []⟩])⟩
      [⟨"json", "title", []⟩] .zero rfl (by decide)).trans (by decide)⟩

/-- C8, the code at the failing inputs.  A struct with a field `Note string` that has no
annotation at all, after an annotated field: `structtag.Parse` returns for the empty
declaration a tag set that is not nil and has no tags, so the test `tag == nil` does not
skip the field and `tag.Get("newsdoc")` fails.  A struct whose only field carries a `json`
annotation and no `newsdoc` annotation fails in the same way.  In both cases the field
should have been skipped. -/
theorem UnmarshalDocument_untagged_field :
    UnmarshalDocument untaggedEnv titledDoc (PointerTo (.base "item" .Struct)) .zero =
      (.struct [.str "A title", .zero],
        some "invalid newsdoc tag for .Note: tag does not exist") ∧
    UnmarshalDocument declEnv titledDoc (PointerTo (.base "jsonOnly" .Struct)) .zero =
      (.struct [.zero], some "invalid newsdoc tag for .Title: tag does not exist") := by
  decide

/-- C9, the code at the failing input: a document with an assignment block without data,
unmarshalled into `*planningItem`.  The message names the fields and not the struct types
`planningItem` and `assignmentBlock`, because `t.Name()` is taken on the pointer type. -/
theorem UnmarshalDocument_error_path :
    UnmarshalDocument declEnv assignmentDoc (PointerTo (.base "planningItem" .Struct)) .zero =
      (.struct [.zero],
        some ("failed to unmarshal blocks for .Assignments: "
          ++ "failed to unmarshal .Status: missing required value")) := by
  decide

theorem unmarshalFields_first_failure (step : StructField → Value → Value × Option String)
    (fields : List StructField) (values : List Value) (err : String)
    (h : (unmarshalFields step fields values).2 = some err) :
    ∃ pre f post done x, fields = pre ++ f :: post ∧ done.length = pre.length ∧
      unmarshalFields step pre values = (done ++ values.drop pre.length, none) ∧
      step f (values.getD pre.length .zero) = (x, some err) ∧
      (unmarshalFields step fields values).1 = done ++ x :: values.drop (pre.length + 1) := by
  induction fields generalizing values with
  | nil => simp [unmarshalFields] at h
  | cons g rest ih =>
    rw [unmarshalFields] at h ⊢
    rcases hs : step g (values.headD .zero) with ⟨y, _ | e⟩
    · rw [hs] at h
      simp only at h
      obtain ⟨pre, f, post, done, x, h1, h2, h3, h4, h5⟩ := ih values.tail h
      refine ⟨g :: pre, f, post, y :: done, x, by simp [h1], by simp [h2], ?_, ?_, ?_⟩
      · rw [unmarshalFields, hs]
        simp [h3]
      · rw [← h4]
        cases values <;> simp
      · simp only [h5]
        cases values <;> simp
    · rw [hs] at h
      simp only [Option.some.injEq] at h
      subst h
      refine ⟨[], g, rest, [], y, rfl, rfl, by simp [unmarshalFields], ?_, ?_⟩
      · rw [← hs]
        cases values <;> simp
      · cases values <;> simp

/-- C10: when `unmarshal` fails on a pointer to a struct, the fields split into those before
the failing field, the failing field and those after it: the loop over the fields before it
succeeds and leaves them as in a run without failure, the failing field is the first whose
processing fails and its error is the one returned, and the values of the fields after it
are those the target had before the call. -/
theorem unmarshal_first_failure (env : Env) (fuel : Nat) (blocks : BlockFunc)
    (attributes : AttrFunc) (tName eName : String) (o : Value) (err : String)
    (h : (unmarshal env (fuel + 1) blocks attributes (.pointer tName (.base eName .Struct))
      o).2 = some err) :
    ∃ pre f post done x, env.fields eName = pre ++ f :: post ∧ done.length = pre.length ∧
      unmarshalFields (unmarshalField env (callee env fuel) tName blocks attributes) pre
        o.Fields = (done ++ o.Fields.drop pre.length, none) ∧
      unmarshalField env (callee env fuel) tName blocks attributes f
        (o.Fields.getD pre.length .zero) = (x, some err) ∧
      (unmarshal env (fuel + 1) blocks attributes (.pointer tName (.base eName .Struct))
        o).1 = .struct (done ++ x :: o.Fields.drop (pre.length + 1)) := by
  simp only [unmarshal_succ, unmarshalWith] at h ⊢
  obtain ⟨pre, f, post, done, x, h1, h2, h3, h4, h5⟩ :=
    unmarshalFields_first_failure _ _ _ err h
  exact ⟨pre, f, post, done, x, h1, h2, h3, h4, by rw [h5]⟩

theorem unmarshal_first_failure_witness :
    ∃ pre f post done x, exampleEnv.fields "exampleItem" = pre ++ f :: post ∧
      done.length = pre.length ∧
      unmarshalFields (unmarshalField exampleEnv (callee exampleEnv 1) ""
        (documentBlocks { Links := [ren] }) (documentAttributes { Links := [ren] })) pre
        (Value.struct [.zero, .zero, .str "later"]).Fields =
          (done ++ (Value.struct [.zero, .zero, .str "later"]).Fields.drop pre.length, none) ∧
      unmarshalField exampleEnv (callee exampleEnv 1) "" (documentBlocks { Links := [ren] })
        (documentAttributes { Links := [ren] }) f
        ((Value.struct [.zero, .zero, .str "later"]).Fields.getD pre.length .zero) =
          (x, some "missing required block for .Meta") ∧
      (unmarshal exampleEnv (1 + 1) (documentBlocks { Links := [ren] })
        (documentAttributes { Links := [ren] }) (.pointer "" (.base "exampleItem" .Struct))
        (.struct [.zero, .zero, .str "later"])).1 =
          .struct (done ++ x ::
            (Value.struct [.zero, .zero, .str "later"]).Fields.drop (pre.length + 1)) :=
  unmarshal_first_failure exampleEnv 1 (documentBlocks { Links := [ren] })
    (documentAttributes { Links := [ren] }) "" "exampleItem"
    (.struct [.zero, .zero, .str "later"]) "missing required block for .Meta" (by decide)

/-! ## Integers -/

theorem digit_toNat (c : Char) (h : isDecimalDigit c) : 48 ≤ c.toNat ∧ c.toNat ≤ 57 := by
  obtain ⟨h1, h2⟩ := h
  have a : '0'.toNat ≤ c.toNat := h1
  have b : c.toNat ≤ '9'.toNat := h2
  exact ⟨a, b⟩

theorem digitsValue_ge (cs : List Char) (n : Nat) : n ≤ digitsValue n cs := by
  induction cs generalizing n with
  | nil => simp [digitsValue]
  | cons c cs ih =>
    have := ih (n * 10 + (c.toNat - '0'.toNat))
    simp only [digitsValue, List.foldl_cons] at this ⊢
    omega

theorem digitsValue_cons (c : Char) (cs : List Char) (n : Nat) :
    digitsValue n (c :: cs) = digitsValue (n * 10 + (c.toNat - '0'.toNat)) cs := rfl

theorem two_pow_64 : (2 : Nat) ^ 64 = 18446744073709551616 := by norm_num

/-- The digit loop on decimal digits: the value when it fits, else the range error. -/
theorem parseUintLoop_digits (maxVal : Nat) (hmax : maxVal < 2 ^ 64) (cs : List Char)
    (n : Nat) (hn : n ≤ maxVal) (hd : ∀ c ∈ cs, isDecimalDigit c) :
    parseUintLoop maxVal cs n =
      if digitsValue n cs ≤ maxVal then (digitsValue n cs, none)
      else (maxVal, some .ErrRange) := by
  rw [two_pow_64] at hmax
  induction cs generalizing n with
  | nil => simp [parseUintLoop, digitsValue, hn]
  | cons c cs ih =>
    have hc : isDecimalDigit c := hd c (by simp)
    have hcs : ∀ x ∈ cs, isDecimalDigit x := fun x hx => hd x (by simp [hx])
    have hc' : '0' ≤ c ∧ c ≤ '9' := hc
    obtain ⟨h48, h57⟩ := digit_toNat c hc
    have h0 : '0'.toNat = 48 := rfl
    rw [parseUintLoop, if_pos hc', digitsValue_cons]
    have hge := digitsValue_ge cs (n * 10 + (c.toNat - '0'.toNat))
    simp only [two_pow_64, h0] at hge ⊢
    by_cases h1 : n ≥ 18446744073709551616 / 10 + 1
    · rw [if_pos h1, if_neg (by omega)]
    · rw [if_neg h1]
      have e10 : n * 10 % 18446744073709551616 = n * 10 := Nat.mod_eq_of_lt (by omega)
      simp only [e10]
      by_cases h2 : n * 10 + (c.toNat - 48) < 18446744073709551616
      · have e1 : (n * 10 + (c.toNat - 48)) % 18446744073709551616 = n * 10 + (c.toNat - 48) :=
          Nat.mod_eq_of_lt h2
        simp only [e1]
        by_cases h3 : n * 10 + (c.toNat - 48) > maxVal
        · rw [if_pos (Or.inr h3), if_neg (by omega)]
        · rw [if_neg (by omega)]
          exact ih _ (by omega) hcs
      · have h4 : (n * 10 + (c.toNat - 48)) % 18446744073709551616 < n * 10 := by omega
        rw [if_pos (Or.inl h4), if_neg (by omega)]

/-- The digit loop never succeeds on a character that is not a decimal digit, and its
failures are a syntax error or a range error with the greatest value. -/
theorem parseUintLoop_error (maxVal : Nat) (cs : List Char) (n : Nat)
    (hd : ¬ ∀ c ∈ cs, isDecimalDigit c) :
    parseUintLoop maxVal cs n = (0, some .ErrSyntax) ∨
      parseUintLoop maxVal cs n = (maxVal, some .ErrRange) := by
  induction cs generalizing n with
  | nil => simp at hd
  | cons c cs ih =>
    rw [parseUintLoop]
    by_cases hc : '0' ≤ c ∧ c ≤ '9'
    · have hcs : ¬ ∀ x ∈ cs, isDecimalDigit x := by
        intro h
        apply hd
        intro x hx
        rcases List.mem_cons.1 hx with hx | hx
        · exact hx ▸ hc
        · exact h x hx
      rw [if_pos hc]
      simp only
      split
      · exact Or.inr rfl
      · split
        · exact Or.inr rfl
        · exact ih _ hcs
    · rw [if_neg hc]
      exact Or.inl rfl

theorem ParseUint_spec (s : String) (w : Nat) (hw0 : 0 < w) (hw : w ≤ 64) :
    (∀ n, uintLiteral s = some n → n ≤ 2 ^ w - 1 → ParseUint s w = (n, none)) ∧
    ((∀ n, uintLiteral s = some n → ¬ n ≤ 2 ^ w - 1) →
      ParseUint s w = (0, some .ErrSyntax) ∨ ParseUint s w = (2 ^ w - 1, some .ErrRange)) := by
  have hmax : 2 ^ w - 1 < 2 ^ 64 := by
    have h1 : 2 ^ w ≤ 2 ^ 64 := Nat.pow_le_pow_right (by norm_num) hw
    have h2 : 0 < 2 ^ w := Nat.pow_pos (by norm_num)
    omega
  have hw' : ¬ w = 0 := by omega
  by_cases he : s = ""
  · subst he
    refine ⟨?_, fun _ => Or.inl (by simp [ParseUint])⟩
    intro n hn
    simp [uintLiteral] at hn
  · have hne : s.data ≠ [] := by
      intro h
      apply he
      exact String.ext h
    have hP : ParseUint s w = parseUintLoop (2 ^ w - 1) s.data 0 := by
      simp [ParseUint, he, hw']
    by_cases hd : ∀ c ∈ s.data, isDecimalDigit c
    · have hl : uintLiteral s = some (digitsValue 0 s.data) := by
        simp only [uintLiteral]
        rw [if_pos ⟨hne, hd⟩]
      have hloop := parseUintLoop_digits (2 ^ w - 1) hmax s.data 0 (Nat.zero_le _) hd
      constructor
      · intro n hn hr
        rw [hl] at hn
        cases hn
        rw [hP, hloop, if_pos hr]
      · intro h
        have := h _ hl
        rw [hP, hloop, if_neg this]
        exact Or.inr rfl
    · refine ⟨?_, fun _ => ?_⟩
      · intro n hn
        simp only [uintLiteral] at hn
        rw [if_neg (fun h => hd h.2)] at hn
        cases hn
      · rw [hP]
        exact parseUintLoop_error _ _ _ hd

theorem signedResult_spec (C : Nat) (hC : 2 ≤ C) (neg : Bool) (lit : Option Nat)
    (r : Nat × Option NumErr)
    (h1 : ∀ m, lit = some m → m ≤ 2 * C - 1 → r = (m, none))
    (h2 : (∀ m, lit = some m → ¬ m ≤ 2 * C - 1) →
      r = (0, some NumErr.ErrSyntax) ∨ r = (2 * C - 1, some NumErr.ErrRange)) :
    (∀ m, lit = some m → ((neg = false ∧ m ≤ C - 1) ∨ (neg = true ∧ m ≤ C)) →
      signedResult C neg r = (if neg = true then -(m : Int) else (m : Int), none)) ∧
    ((∀ m, lit = some m → ¬ ((neg = false ∧ m ≤ C - 1) ∨ (neg = true ∧ m ≤ C))) →
      (signedResult C neg r).2 ≠ none) := by
  constructor
  · intro m hm hr
    have := h1 m hm (by rcases hr with ⟨_, h⟩ | ⟨_, h⟩ <;> omega)
    subst this
    rcases hr with ⟨hn, h⟩ | ⟨hn, h⟩ <;> subst hn <;> simp only [signedResult] <;>
      split_ifs <;> (try simp at *) <;> (try omega)
  · intro h
    cases hl : lit with
    | none =>
      rcases h2 (by simp [hl]) with e | e <;> subst e <;> cases neg <;>
        simp only [signedResult] <;> split_ifs <;> (try simp at *) <;> (try omega)
    | some m =>
      have hm := h m hl
      by_cases hfit : m ≤ 2 * C - 1
      · have := h1 m hl hfit
        subst this
        cases neg <;> simp only [signedResult] <;> split_ifs <;> (try simp at *) <;>
          (try omega)
      · rcases h2 (by intro n hn; rw [hl] at hn; cases hn; exact hfit) with e | e <;>
          subst e <;> cases neg <;> simp only [signedResult] <;> split_ifs <;>
          (try simp at *) <;> (try omega)

theorem ParseInt_eq (s : String) (w : Nat) (hw : ¬ w = 0) (c : Char) (cs : List Char)
    (hs : s.data = c :: cs) :
    ParseInt s w = signedResult (2 ^ (w - 1)) (decide (c = '-'))
      (ParseUint (if c = '+' ∨ c = '-' then String.mk cs else s) w) := by
  simp only [ParseInt, hs, hw, ↓reduceIte, signedResult]
  rcases ParseUint (if c = '+' ∨ c = '-' then String.mk cs else s) w with ⟨un, err⟩
  simp

theorem ParseInt_spec (s : String) (w : Nat) (hw2 : 2 ≤ w) (hw : w ≤ 64) :
    (∀ n : Int, intLiteral s = some n → -(2 ^ (w - 1) : Int) ≤ n → n ≤ 2 ^ (w - 1) - 1 →
      ParseInt s w = (n, none)) ∧
    ((∀ n : Int, intLiteral s = some n → ¬ (-(2 ^ (w - 1) : Int) ≤ n ∧ n ≤ 2 ^ (w - 1) - 1)) →
      (ParseInt s w).2 ≠ none) := by
  have hw' : ¬ w = 0 := by omega
  have hpow : 2 ^ w = 2 * 2 ^ (w - 1) := by
    have : w = (w - 1) + 1 := by omega
    conv_lhs => rw [this]
    rw [Nat.pow_succ]
    omega
  have hgt : 2 ≤ 2 ^ (w - 1) := by
    have : 2 ^ 1 ≤ 2 ^ (w - 1) := Nat.pow_le_pow_right (by norm_num) (by omega)
    simpa using this
  have hcast : ((2 : Int) ^ (w - 1)) = ((2 ^ (w - 1) : Nat) : Int) := by push_cast; rfl
  rw [hcast]
  rcases hs : s.data with _ | ⟨c, cs⟩
  · refine ⟨?_, fun _ => by simp [ParseInt, hs]⟩
    intro n hn
    simp [intLiteral, hs] at hn
  · rw [ParseInt_eq s w hw' c cs hs]
    have hk := fun rest neg =>
      signedResult_spec (2 ^ (w - 1)) hgt neg (uintLiteral rest) (ParseUint rest w)
        (by rw [← hpow]; exact (ParseUint_spec rest w (by omega) hw).1)
        (by rw [← hpow]; exact (ParseUint_spec rest w (by omega) hw).2)
    generalize 2 ^ (w - 1) = C at hk hgt ⊢
    by_cases h1 : c = '+'
    · subst h1
      have hi : intLiteral s = (uintLiteral (String.mk cs)).map (fun n : Nat => (n : Int)) := by
        simp [intLiteral, hs]
      have hk := hk (String.mk cs) false
      simp only [true_or, ↓reduceIte, hi, show decide ('+' = '-') = false from by decide]
      constructor
      · intro n hn hlo hhi
        obtain ⟨m, hm, rfl⟩ := Option.map_eq_some'.1 hn
        have := hk.1 m hm (Or.inl ⟨rfl, by omega⟩)
        simpa using this
      · intro h
        apply hk.2
        intro m hm hr
        apply h m (by simp [hm])
        rcases hr with ⟨_, hr⟩ | ⟨hr, _⟩
        · omega
        · exact absurd hr (by decide)
    · by_cases h2 : c = '-'
      · subst h2
        have hi : intLiteral s = (uintLiteral (String.mk cs)).map (fun n : Nat => -(n : Int)) := by
          simp [intLiteral, hs]
        have hk := hk (String.mk cs) true
        simp only [or_true, ↓reduceIte, hi, decide_True]
        constructor
        · intro n hn hlo hhi
          obtain ⟨m, hm, rfl⟩ := Option.map_eq_some'.1 hn
          have := hk.1 m hm (Or.inr ⟨rfl, by omega⟩)
          simpa using this
        · intro h
          apply hk.2
          intro m hm hr
          apply h (-(m : Int)) (by simp [hm])
          rcases hr with ⟨hr, _⟩ | ⟨_, hr⟩
          · exact absurd hr (by decide)
          · omega
      · have hi : intLiteral s = (uintLiteral s).map (fun n : Nat => (n : Int)) := by
          simp [intLiteral, hs, h1, h2]
        have hk := hk s false
        simp only [h1, h2, or_self, ↓reduceIte, hi, decide_False]
        constructor
        · intro n hn hlo hhi
          obtain ⟨m, hm, rfl⟩ := Option.map_eq_some'.1 hn
          have := hk.1 m hm (Or.inl ⟨rfl, by omega⟩)
          simpa using this
        · intro h
          apply hk.2
          intro m hm hr
          apply h m (by simp [hm])
          rcases hr with ⟨_, hr⟩ | ⟨hr, _⟩
          · omega
          · exact absurd hr (by decide)

theorem readValue_int_eq (env : Env) (attributes : AttrFunc) (fieldTy : Ty) (field : Value)
    (ndtag : Tag) (value pn name : String) (kind : BaseKind)
    (hv : attributes ndtag.Name = (value, true)) (hk : isSignedInt kind = true)
    (hT : fieldTy = .base name kind ∨ fieldTy = .pointer pn (.base name kind)) :
    readValue env attributes fieldTy field ndtag =
      match ParseInt value (bitSize kind.toKind) with
      | (_, some err) => (field, some ("invalid int: " ++ err.Error "ParseInt" value))
      | (i, none) => (store (fieldTy.Kind == .Pointer) (.int i), none) := by
  rcases hT with hT | hT <;> subst hT <;> cases kind <;> simp [isSignedInt] at hk <;>
    simp [readValue, hv, Ty.Kind, BaseKind.toKind]

theorem readValue_uint_eq (env : Env) (attributes : AttrFunc) (fieldTy : Ty) (field : Value)
    (ndtag : Tag) (value pn name : String) (kind : BaseKind)
    (hv : attributes ndtag.Name = (value, true)) (hk : isUnsignedInt kind = true)
    (hT : fieldTy = .base name kind ∨ fieldTy = .pointer pn (.base name kind)) :
    readValue env attributes fieldTy field ndtag =
      match ParseUint value (bitSize kind.toKind) with
      | (_, some err) => (field, some ("invalid uint: " ++ err.Error "ParseUint" value))
      | (i, none) => (store (fieldTy.Kind == .Pointer) (.uint i), none) := by
  rcases hT with hT | hT <;> subst hT <;> cases kind <;> simp [isUnsignedInt] at hk <;>
    simp [readValue, hv, Ty.Kind, BaseKind.toKind]

theorem bitSize_int (kind : BaseKind) (hk : isSignedInt kind = true ∨ isUnsignedInt kind = true) :
    2 ≤ bitSize kind.toKind ∧ bitSize kind.toKind ≤ 64 := by
  cases kind <;> simp [isSignedInt, isUnsignedInt] at hk <;>
    simp [bitSize, BaseKind.toKind]

/-- C11: for a present value and an integer field, plain or pointer, of declared width `w`:
`int8`, `int16`, `int32`, `int64` with 8, 16, 32, 64 and `int` with 64; `uint8`, `uint16`,
`uint32`, `uint64` with 8, 16, 32, 64 and `uint` with 64.  For a signed field: when the value
is a signed base-10 literal of an integer `n` with `-2^(w-1) ≤ n ≤ 2^(w-1) - 1`, `readValue`
succeeds and stores `n`; in every other case it fails with "invalid int: " and a cause, the
field left as it was.  For an unsigned field: when the value is an unsigned base-10 literal
of `n ≤ 2^w - 1`, `readValue` succeeds and stores `n`; in every other case it fails with
"invalid uint: " and a cause, the field left as it was. -/
theorem readValue_integer_range (env : Env) (attributes : AttrFunc) (fieldTy : Ty)
    (field : Value) (ndtag : Tag) (value pn name : String) (kind : BaseKind) (w : Nat)
    (hv : attributes ndtag.Name = (value, true))
    (hT : fieldTy = .base name kind ∨ fieldTy = .pointer pn (.base name kind)) :
    ((kind, w) ∈ [(BaseKind.Int8, 8), (BaseKind.Int16, 16), (BaseKind.Int32, 32),
        (BaseKind.Int64, 64), (BaseKind.Int, 64)] →
      (∀ n : Int, intLiteral value = some n →
        -(2 ^ (w - 1) : Int) ≤ n → n ≤ 2 ^ (w - 1) - 1 →
        readValue env attributes fieldTy field ndtag =
          (store (fieldTy.Kind == .Pointer) (.int n), none)) ∧
      ((∀ n : Int, intLiteral value = some n →
        ¬ (-(2 ^ (w - 1) : Int) ≤ n ∧ n ≤ 2 ^ (w - 1) - 1)) →
        ∃ cause, readValue env attributes fieldTy field ndtag =
          (field, some ("invalid int: " ++ cause)))) ∧
    ((kind, w) ∈ [(BaseKind.Uint8, 8), (BaseKind.Uint16, 16), (BaseKind.Uint32, 32),
        (BaseKind.Uint64, 64), (BaseKind.Uint, 64)] →
      (∀ n : Nat, uintLiteral value = some n → n ≤ 2 ^ w - 1 →
        readValue env attributes fieldTy field ndtag =
          (store (fieldTy.Kind == .Pointer) (.uint n), none)) ∧
      ((∀ n : Nat, uintLiteral value = some n → ¬ n ≤ 2 ^ w - 1) →
        ∃ cause, readValue env attributes fieldTy field ndtag =
          (field, some ("invalid uint: " ++ cause)))) := by
  constructor
  · intro hw
    have hkw : isSignedInt kind = true ∧ bitSize kind.toKind = w := by
      simp only [List.mem_cons, Prod.mk.injEq, List.mem_singleton, List.mem_nil_iff,
        or_false] at hw
      rcases hw with ⟨h1, h2⟩ | ⟨h1, h2⟩ | ⟨h1, h2⟩ | ⟨h1, h2⟩ | ⟨h1, h2⟩ <;>
        subst h1 <;> subst h2 <;> exact ⟨rfl, rfl⟩
    obtain ⟨hk, hb⟩ := hkw
    obtain ⟨h2, h64⟩ := bitSize_int kind (Or.inl hk)
    have hs := ParseInt_spec value (bitSize kind.toKind) h2 h64
    rw [readValue_int_eq env attributes fieldTy field ndtag value pn name kind hv hk hT]
    rw [hb] at hs ⊢
    constructor
    · intro n hn hlo hhi
      rw [hs.1 n hn hlo hhi]
    · intro h
      have he := hs.2 h
      rcases hp : ParseInt value w with ⟨i, _ | err⟩
      · rw [hp] at he
        exact absurd rfl he
      · exact ⟨_, rfl⟩
  · intro hw
    have hkw : isUnsignedInt kind = true ∧ bitSize kind.toKind = w := by
      simp only [List.mem_cons, Prod.mk.injEq, List.mem_singleton, List.mem_nil_iff,
        or_false] at hw
      rcases hw with ⟨h1, h2⟩ | ⟨h1, h2⟩ | ⟨h1, h2⟩ | ⟨h1, h2⟩ | ⟨h1, h2⟩ <;>
        subst h1 <;> subst h2 <;> exact ⟨rfl, rfl⟩
    obtain ⟨hk, hb⟩ := hkw
    obtain ⟨h2, h64⟩ := bitSize_int kind (Or.inr hk)
    have hs := ParseUint_spec value (bitSize kind.toKind) (by omega) h64
    rw [readValue_uint_eq env attributes fieldTy field ndtag value pn name kind hv hk hT]
    rw [hb] at hs ⊢
    constructor
    · intro n hn hr
      rw [hs.1 n hn hr]
    · intro h
      rcases hs.2 h with e | e <;> rw [e] <;> exact ⟨_, rfl⟩

theorem readValue_integer_range_witness :
    (readValue exampleEnv (blockAttributes numbers) (.base "int8" .Int8) .zero
        ⟨"newsdoc", "data.a", []⟩ = (.int 127, none) ∧
      ∃ cause, readValue exampleEnv (blockAttributes numbers) (.base "int8" .Int8) .zero
        ⟨"newsdoc", "data.b", []⟩ = (.zero, some ("invalid int: " ++ cause))) ∧
    (readValue exampleEnv (blockAttributes numbers) (.pointer "" (.base "uint8" .Uint8)) .zero
        ⟨"newsdoc", "data.c", []⟩ = (.ptr (.uint 255), none) ∧
      ∃ cause, readValue exampleEnv (blockAttributes numbers) (.base "uint8" .Uint8) .zero
        ⟨"newsdoc", "data.d", []⟩ = (.zero, some ("invalid uint: " ++ cause))) ∧
    (readValue exampleEnv (blockAttributes widths) (.base "int16" .Int16) .zero
        ⟨"newsdoc", "data.a", []⟩ = (.int (-32768), none) ∧
      ∃ cause, readValue exampleEnv (blockAttributes widths) (.base "int16" .Int16) .zero
        ⟨"newsdoc", "data.b", []⟩ = (.zero, some ("invalid int: " ++ cause))) ∧
    (readValue exampleEnv (blockAttributes widths) (.base "uint32" .Uint32) .zero
        ⟨"newsdoc", "data.c", []⟩ = (.uint 4294967295, none) ∧
      ∃ cause, readValue exampleEnv (blockAttributes widths) (.base "int32" .Int32) .zero
        ⟨"newsdoc", "data.c", []⟩ = (.zero, some ("invalid int: " ++ cause))) ∧
    (readValue exampleEnv (blockAttributes widths) (.base "int" .Int) .zero
        ⟨"newsdoc", "data.d", []⟩ = (.int 9223372036854775807, none) ∧
      ∃ cause, readValue exampleEnv (blockAttributes widths) (.base "int64" .Int64) .zero
        ⟨"newsdoc", "data.e", []⟩ = (.zero, some ("invalid int: " ++ cause))) :=
  have h := readValue_integer_range exampleEnv
  ⟨⟨((h (blockAttributes numbers) (.base "int8" .Int8) .zero
        ⟨"newsdoc", "data.a", []⟩ "127" "" "int8" .Int8 8 (by decide) (Or.inl rfl)).1
        (by decide)).1 127 (by decide) (by decide) (by decide),
     ((h (blockAttributes numbers) (.base "int8" .Int8) .zero
        ⟨"newsdoc", "data.b", []⟩ "128" "" "int8" .Int8 8 (by decide) (Or.inl rfl)).1
        (by decide)).2 (fun n hn => by
          have e : intLiteral "128" = some 128 := by decide
          rw [e] at hn
          cases hn
          decide)⟩,
   ⟨((h (blockAttributes numbers) (.pointer "" (.base "uint8" .Uint8)) .zero
        ⟨"newsdoc", "data.c", []⟩ "255" "" "uint8" .Uint8 8 (by decide) (Or.inr rfl)).2
        (by decide)).1 255 (by decide) (by decide),
     ((h (blockAttributes numbers) (.base "uint8" .Uint8) .zero
        ⟨"newsdoc", "data.d", []⟩ "-1" "" "uint8" .Uint8 8 (by decide) (Or.inl rfl)).2
        (by decide)).2 (fun n hn => by
          have e : uintLiteral "-1" = none := by decide
          rw [e] at hn
          cases hn)⟩,
   ⟨((h (blockAttributes widths) (.base "int16" .Int16) .zero
        ⟨"newsdoc", "data.a", []⟩ "-32768" "" "int16" .Int16 16 (by decide) (Or.inl rfl)).1
        (by decide)).1 (-32768) (by decide) (by decide) (by decide),
     ((h (blockAttributes widths) (.base "int16" .Int16) .zero
        ⟨"newsdoc", "data.b", []⟩ "32768" "" "int16" .Int16 16 (by decide) (Or.inl rfl)).1
        (by decide)).2 (fun n hn => by
          have e : intLiteral "32768" = some 32768 := by decide
          rw [e] at hn
          cases hn
          decide)⟩,
   ⟨((h (blockAttributes widths) (.base "uint32" .Uint32) .zero
        ⟨"newsdoc", "data.c", []⟩ "4294967295" "" "uint32" .Uint32 32 (by decide)
        (Or.inl rfl)).2 (by decide)).1 4294967295 (by decide) (by decide),
     ((h (blockAttributes widths) (.base "int32" .Int32) .zero
        ⟨"newsdoc", "data.c", []⟩ "4294967295" "" "int32" .Int32 32 (by decide)
        (Or.inl rfl)).1 (by decide)).2 (fun n hn => by
          have e : intLiteral "4294967295" = some 4294967295 := by decide
          rw [e] at hn
          cases hn
          decide)⟩,
   ⟨((h (blockAttributes widths) (.base "int" .Int) .zero
        ⟨"newsdoc", "data.d", []⟩ "9223372036854775807" "" "int" .Int 64 (by decide)
        (Or.inl rfl)).1 (by decide)).1 9223372036854775807 (by decide) (by decide)
        (by decide),
     ((h (blockAttributes widths) (.base "int64" .Int64) .zero
        ⟨"newsdoc", "data.e", []⟩ "9223372036854775808" "" "int64" .Int64 64 (by decide)
        (Or.inl rfl)).1 (by decide)).2 (fun n hn => by
          have e : intLiteral "9223372036854775808" = some 9223372036854775808 := by decide
          rw [e] at hn
          cases hn
          decide)⟩⟩

/-! ## Coercion of the other types -/

/-- C12, the code at the failing input: the `uuid` of the example document is decoded into a
plain field of the type `UUID`, which implements `encoding.TextUnmarshaler`, while a field
that is a pointer to that type is left nil without an error: `field.Addr()` is then a pointer
to a pointer, which has no methods. -/
theorem readValue_text_pointer :
    readValue exampleEnv (documentAttributes exampleDoc) (.base "UUID" .Other) .zero
        ⟨"newsdoc", "uuid", []⟩ = (.ext "d04e9871-c3df-4fb0-878f-23f8d5ada7c2", none) ∧
    readValue exampleEnv (documentAttributes exampleDoc) (.pointer "" (.base "UUID" .Other))
        .zero ⟨"newsdoc", "uuid", []⟩ = (.zero, none) := by
  decide

theorem readValue_no_rule_eq (env : Env) (attributes : AttrFunc) (fieldTy : Ty)
    (field : Value) (ndtag : Tag) (value : String)
    (hv : attributes ndtag.Name = (value, true))
    (hR : hasCoercionRule (valueType fieldTy) = false) :
    readValue env attributes fieldTy field ndtag = readText env fieldTy field value := by
  rcases fieldTy with ⟨n, k⟩ | ⟨n, e⟩ | ⟨n, e⟩
  · cases k <;> simp [hasCoercionRule, valueType, Ty.Kind, BaseKind.toKind, Ty.Name] at hR <;>
      simp [readValue, hv, Ty.Kind, BaseKind.toKind, Ty.Name, hR]
  · rcases e with ⟨n', k⟩ | ⟨n', e'⟩ | ⟨n', e'⟩
    · cases k <;>
        simp [hasCoercionRule, valueType, Ty.Kind, BaseKind.toKind, Ty.Name] at hR <;>
        simp [readValue, hv, Ty.Kind, BaseKind.toKind, Ty.Name, hR]
    · simp [readValue, hv, Ty.Kind]
    · simp [readValue, hv, Ty.Kind]
  · simp [readValue, hv, Ty.Kind]

/-- C13: for a present value and a field whose type has no case in the switch of `readValue`
(not a string, bool, integer, float or `time.Time`, nor a pointer to one) and offers no
`encoding.TextUnmarshaler`, `readValue` returns without an error and the field is as it
was. -/
theorem readValue_no_rule (env : Env) (attributes : AttrFunc) (fieldTy : Ty)
    (field : Value) (ndtag : Tag) (value : String)
    (hv : attributes ndtag.Name = (value, true))
    (hR : hasCoercionRule (valueType fieldTy) = false)
    (hU : textUnmarshaler env fieldTy = none) :
    readValue env attributes fieldTy field ndtag = (field, none) := by
  rw [readValue_no_rule_eq env attributes fieldTy field ndtag value hv hR]
  simp [readText, hU]

theorem readValue_no_rule_witness :
    readValue declEnv (documentAttributes exampleDoc) (.base "UUID" .Other) (.ext "before")
        ⟨"newsdoc", "uuid", []⟩ = (.ext "before", none) :=
  readValue_no_rule declEnv (documentAttributes exampleDoc) (.base "UUID" .Other)
    (.ext "before") ⟨"newsdoc", "uuid", []⟩ "d04e9871-c3df-4fb0-878f-23f8d5ada7c2"
    (by decide) (by decide) rfl

/-! ## Bools -/

theorem ParseBool_spec (value : String) :
    ParseBool value =
      if value ∈ trueForms then .ok true
      else if value ∈ falseForms then .ok false
      else .error ("strconv.ParseBool: parsing " ++ Quote value ++ ": invalid syntax") := by
  simp only [ParseBool, trueForms, falseForms, List.mem_cons, List.mem_singleton,
    List.mem_nil_iff, or_false]

theorem trueForms_not_false (value : String) (h : value ∈ trueForms) :
    value ∉ falseForms := by
  simp only [trueForms, List.mem_cons, List.mem_singleton, List.mem_nil_iff, or_false] at h
  rcases h with h | h | h | h | h | h <;> subst h <;> decide

/-- C15: for a present value and a bool field, plain (of any type whose kind is bool) or a
pointer to the predeclared `bool`: `readValue` stores true exactly when the value is one of
`1`, `t`, `T`, `TRUE`, `true`, `True`, stores false exactly when it is one of `0`, `f`, `F`,
`FALSE`, `false`, `False`, and for every other value fails with "invalid bool: " and a
cause, the field left as it was. -/
theorem readValue_bool (env : Env) (attributes : AttrFunc) (fieldTy : Ty) (field : Value)
    (ndtag : Tag) (value pn name : String)
    (hv : attributes ndtag.Name = (value, true))
    (hT : fieldTy = .base name .Bool ∨ fieldTy = .pointer pn (.base "bool" .Bool)) :
    (readValue env attributes fieldTy field ndtag =
        (store (fieldTy.Kind == .Pointer) (.bool true), none) ↔ value ∈ trueForms) ∧
    (readValue env attributes fieldTy field ndtag =
        (store (fieldTy.Kind == .Pointer) (.bool false), none) ↔ value ∈ falseForms) ∧
    (value ∉ trueForms → value ∉ falseForms →
      ∃ cause, readValue env attributes fieldTy field ndtag =
        (field, some ("invalid bool: " ++ cause))) := by
  have h : readValue env attributes fieldTy field ndtag =
      match ParseBool value with
      | .error err => (field, some ("invalid bool: " ++ err))
      | .ok b => (store (fieldTy.Kind == .Pointer) (.bool b), none) := by
    rcases hT with hT | hT <;> subst hT <;>
      simp [readValue, hv, Ty.Kind, BaseKind.toKind]
  have hne : store (fieldTy.Kind == .Pointer) (.bool true) ≠
      store (fieldTy.Kind == .Pointer) (.bool false) := by
    rcases hT with hT | hT <;> subst hT <;> simp [store, Ty.Kind, BaseKind.toKind]
  rw [h, ParseBool_spec]
  by_cases h1 : value ∈ trueForms
  · have h2 := trueForms_not_false value h1
    simp only [h1, h2, ↓reduceIte, true_iff, iff_false, not_true_eq_false, false_implies,
      and_true, true_and]
    intro e
    exact hne (congrArg Prod.fst e)
  · by_cases h2 : value ∈ falseForms
    · simp only [h1, h2, ↓reduceIte, iff_false, iff_true, not_false_eq_true,
        not_true_eq_false, false_implies, implies_true, and_true, true_and]
      intro e
      exact hne (congrArg Prod.fst e).symm
    · simp only [h1, h2, ↓reduceIte, iff_false, not_false_eq_true, true_implies]
      refine ⟨by simp, by simp, ⟨_, rfl⟩⟩

theorem readValue_bool_witness :
    readValue exampleEnv (blockAttributes flags) (.base "bool" .Bool) .zero
        ⟨"newsdoc", "data.a", []⟩ = (.bool true, none) ∧
    readValue exampleEnv (blockAttributes flags) (.pointer "" (.base "bool" .Bool)) .zero
        ⟨"newsdoc", "data.b", []⟩ = (.ptr (.bool false), none) ∧
    (∃ cause, readValue exampleEnv (blockAttributes flags) (.base "bool" .Bool) (.bool true)
        ⟨"newsdoc", "data.c", []⟩ = (.bool true, some ("invalid bool: " ++ cause))) :=
  ⟨(readValue_bool exampleEnv (blockAttributes flags) (.base "bool" .Bool) .zero
      ⟨"newsdoc", "data.a", []⟩ "True" "" "bool" (by decide) (Or.inl rfl)).1.2 (by decide),
   (readValue_bool exampleEnv (blockAttributes flags) (.pointer "" (.base "bool" .Bool)) .zero
      ⟨"newsdoc", "data.b", []⟩ "0" "" "bool" (by decide) (Or.inr rfl)).2.1.2 (by decide),
   (readValue_bool exampleEnv (blockAttributes flags) (.base "bool" .Bool) (.bool true)
      ⟨"newsdoc", "data.c", []⟩ "yes" "" "bool" (by decide) (Or.inl rfl)).2.2
      (by decide) (by decide)⟩

/-! ## The attribute resolvers -/

theorem isPrefixOf_data (name pre : String) (h : pre.data.isPrefixOf name.data = true) :
    name = pre ++ String.mk (name.data.drop pre.data.length) := by
  apply String.ext
  rw [String.data_append]
  obtain ⟨t, ht⟩ := List.isPrefixOf_iff_prefix.1 h
  rw [← ht]
  simp

/-- C16: the attribute resolver of a block answers a name `data.<key>` with the value of the
key in the data map and present, or absent with the empty string when the map is nil or has
no such key; each of the eleven attribute names with the field of the block and present,
also when the field is empty; and every other name with absent and the empty string. -/
theorem blockAttributes_spec (block : Block) :
    (∀ key : String, blockAttributes block ("data." ++ key) =
      match block.Data with
      | none => ("", false)
      | some data =>
        match data.lookup key with
        | some v => (v, true)
        | none => ("", false)) ∧
    (blockAttributes block "id" = (block.ID, true) ∧
      blockAttributes block "uuid" = (block.UUID, true) ∧
      blockAttributes block "type" = (block.Typ, true) ∧
      blockAttributes block "uri" = (block.URI, true) ∧
      blockAttributes block "url" = (block.URL, true) ∧
      blockAttributes block "title" = (block.Title, true) ∧
      blockAttributes block "rel" = (block.Rel, true) ∧
      blockAttributes block "name" = (block.Name, true) ∧
      blockAttributes block "value" = (block.Value, true) ∧
      blockAttributes block "contenttype" = (block.Contenttype, true) ∧
      blockAttributes block "role" = (block.Role, true)) ∧
    (∀ name : String, (∀ key : String, name ≠ "data." ++ key) → name ∉ blockAttrNames →
      blockAttributes block name = ("", false)) := by
  refine ⟨?_, ?_, ?_⟩
  · intro key
    simp only [blockAttributes, stringsCutPrefix_data, ↓reduceIte]
    cases block.Data with
    | none => rfl
    | some data => simp only [mapIndex]
  · simp [blockAttributes, stringsCutPrefix]
  · intro name hd hn
    have hp : ¬ "data.".data.isPrefixOf name.data = true := by
      intro h
      exact hd _ (isPrefixOf_data name "data." h)
    simp only [blockAttrNames, List.mem_cons, List.mem_singleton, List.mem_nil_iff, or_false,
      not_or] at hn
    obtain ⟨h1, h2, h3, h4, h5, h6, h7, h8, h9, h10, h11⟩ := hn
    simp [blockAttributes, stringsCutPrefix, hp, h1, h2, h3, h4, h5, h6, h7, h8, h9, h10, h11]

theorem blockAttributes_spec_witness :
    blockAttributes stimpy "language" = ("", false) :=
  (blockAttributes_spec stimpy).2.2 "language"
    (fun key h => by
      have := congrArg (fun s => s.data.head?) h
      simp [String.data_append] at this)
    (by decide)

/-- C20: the attribute resolver of a document answers each of `uuid`, `type`, `title`, `uri`,
`url`, `language` with the field of the document and present, also when the field is empty,
and every other name with absent.  Hence `readValue` on a document never fails with
"missing required value" for one of the six names, and always does for another name on a
field that is not a pointer and has no `optional`. -/
theorem documentAttributes_spec (d : Document) :
    (documentAttributes d "uuid" = (d.UUID, true) ∧
      documentAttributes d "type" = (d.Typ, true) ∧
      documentAttributes d "title" = (d.Title, true) ∧
      documentAttributes d "uri" = (d.URI, true) ∧
      documentAttributes d "url" = (d.URL, true) ∧
      documentAttributes d "language" = (d.Language, true)) ∧
    (∀ name : String, name ∉ docAttrNames → documentAttributes d name = ("", false)) ∧
    (∀ (env : Env) (fieldTy : Ty) (field : Value) (ndtag : Tag),
      ndtag.Name ∈ docAttrNames →
      (readValue env (documentAttributes d) fieldTy field ndtag).2 ≠
        some "missing required value") ∧
    (∀ (env : Env) (fieldTy : Ty) (field : Value) (ndtag : Tag),
      ndtag.Name ∉ docAttrNames → fieldTy.Kind ≠ .Pointer → "optional" ∉ ndtag.Options →
      readValue env (documentAttributes d) fieldTy field ndtag =
        (field, some "missing required value")) := by
  have habs : ∀ name : String, name ∉ docAttrNames →
      documentAttributes d name = ("", false) := by
    intro name hn
    simp only [docAttrNames, List.mem_cons, List.mem_singleton, List.mem_nil_iff, or_false,
      not_or] at hn
    obtain ⟨h1, h2, h3, h4, h5, h6⟩ := hn
    simp [documentAttributes, h1, h2, h3, h4, h5, h6]
  refine ⟨by simp [documentAttributes], habs, ?_, ?_⟩
  · intro env fieldTy field ndtag hn
    apply readValue_present_ne_missing
    simp only [docAttrNames, List.mem_cons, List.mem_singleton, List.mem_nil_iff,
      or_false] at hn
    rcases hn with h | h | h | h | h | h <;> rw [h] <;> simp [documentAttributes]
  · intro env fieldTy field ndtag hn hp ho
    rw [readValue_absent env (documentAttributes d) fieldTy field ndtag (by rw [habs _ hn]),
      if_pos ⟨hp, ho⟩]

theorem documentAttributes_spec_witness :
    (readValue exampleEnv (documentAttributes {}) (.base "string" .String) .zero
        ⟨"newsdoc", "language", []⟩).2 ≠ some "missing required value" ∧
    readValue exampleEnv (documentAttributes exampleDoc) (.base "string" .String) .zero
        ⟨"newsdoc", "data.text", []⟩ = (.zero, some "missing required value") :=
  ⟨(documentAttributes_spec {}).2.2.1 exampleEnv (.base "string" .String) .zero
      ⟨"newsdoc", "language", []⟩ (by decide),
   (documentAttributes_spec exampleDoc).2.2.2 exampleEnv (.base "string" .String) .zero
      ⟨"newsdoc", "data.text", []⟩ (by decide) (by decide) (by decide)⟩

/-! ## The layout of timestamps -/

theorem cutList_eq (sep cs before after : List Char)
    (h : cutList sep cs = some (before, after)) : cs = before ++ sep ++ after := by
  induction cs generalizing before with
  | nil =>
    simp only [cutList] at h
    split at h
    · cases h
      simp [*]
    · cases h
  | cons c cs ih =>
    simp only [cutList] at h
    split at h
    · rename_i hp
      cases h
      obtain ⟨t, ht⟩ := List.isPrefixOf_iff_prefix.1 hp
      rw [← ht]
      simp
    · split at h
      · rename_i b a hc
        cases h
        have := ih b hc
        rw [this]
        simp
      · cases h

theorem formatValue_eq (opt : String) :
    formatValue opt =
      if (stringsCut opt "=").2.2 = true ∧ (stringsCut opt "=").1 = "format" then
        some (stringsCut opt "=").2.1
      else none := by
  by_cases hp : "format=".data.isPrefixOf opt.data = true
  · obtain ⟨t, ht⟩ := List.isPrefixOf_iff_prefix.1 hp
    have hc : stringsCut opt "=" = ("format", String.mk t, true) := by
      simp only [stringsCut, ← ht]
      simp [cutList]
    have hd : opt.data.drop 7 = t := by
      rw [← ht]
      rfl
    simp [formatValue, hp, hc, hd]
  · have hn : ¬ ((stringsCut opt "=").2.2 = true ∧ (stringsCut opt "=").1 = "format") := by
      rintro ⟨h1, h2⟩
      apply hp
      simp only [stringsCut] at h1 h2
      rcases hc : cutList "=".data opt.data with _ | ⟨b, a⟩
      · simp [hc] at h1
      · simp only [hc] at h2
        have hb : b = "format".data := by
          have := congrArg String.data h2
          simpa using this
        have := cutList_eq _ _ _ _ hc
        rw [List.isPrefixOf_iff_prefix, this, hb]
        exact ⟨a, by simp⟩
    simp [formatValue, hp, hn]

theorem timeFormat_go (options : List String) :
    timeFormat.go options =
      match options.findSome? formatValue with
      | some v => v
      | none => "2006-01-02T15:04:05Z07:00" := by
  induction options with
  | nil => simp [timeFormat.go]
  | cons opt rest ih =>
    simp only [timeFormat.go, List.findSome?_cons, formatValue_eq opt]
    by_cases h : (stringsCut opt "=").2.2 = true ∧ (stringsCut opt "=").1 = "format"
    · simp [h]
    · simp only [h, ↓reduceIte, ih]

theorem findSome_filter (options : List String) :
    (options.filter (fun opt => (formatValue opt).isSome)).findSome? formatValue =
      options.findSome? formatValue := by
  induction options with
  | nil => rfl
  | cons opt rest ih =>
    cases h : formatValue opt with
    | none => simp [List.filter, h, ih, List.findSome?_cons]
    | some v => simp [List.filter, h, List.findSome?_cons]

/-- C14: the layout of `timeFormat` is the text after `format=` of the first option that
starts with `format=`, and the RFC 3339 layout `2006-01-02T15:04:05Z07:00` when no option
starts with `format=`; the options that do not start with `format=` have no part in it; and
`readValue` parses a present value for a `time.Time` field, plain or pointer, with that
layout. -/
theorem timeFormat_spec (key name : String) (options : List String) :
    timeFormat ⟨key, name, options⟩ =
      (match options.findSome? formatValue with
      | some v => v
      | none => "2006-01-02T15:04:05Z07:00") ∧
    timeFormat ⟨key, name, options.filter (fun opt => (formatValue opt).isSome)⟩ =
      timeFormat ⟨key, name, options⟩ ∧
    (∀ (env : Env) (attributes : AttrFunc) (fieldTy : Ty) (field : Value) (value pn : String),
      attributes name = (value, true) →
      (fieldTy = .base timeTypeName .Struct ∨
        fieldTy = .pointer pn (.base timeTypeName .Struct)) →
      readValue env attributes fieldTy field ⟨key, name, options⟩ =
        match env.timeParse (timeFormat ⟨key, name, options⟩) value with
        | .error err => (field, some ("invalid time: " ++ err))
        | .ok t => (store (fieldTy.Kind == .Pointer) t, none)) := by
  refine ⟨timeFormat_go options, ?_, ?_⟩
  · simp only [timeFormat, timeFormat_go, findSome_filter]
  · intro env attributes fieldTy field value pn hv hT
    rcases hT with hT | hT <;> subst hT <;>
      simp [readValue, hv, Ty.Kind, BaseKind.toKind, Ty.Name]

theorem timeFormat_spec_witness :
    timeFormat ⟨"newsdoc", "data.date", ["optional", "type=x", "format=2006-01-02",
        "format=15:04"]⟩ = "2006-01-02" ∧
    timeFormat ⟨"newsdoc", "data.date", ["optional", "formats=1"]⟩ =
      "2006-01-02T15:04:05Z07:00" ∧
    readValue exampleEnv (blockAttributes dated) (.pointer "" (.base "time.Time" .Struct))
        .zero ⟨"newsdoc", "data.date", ["format=2006-01-02"]⟩ =
      (.ptr (.ext "2006-01-02 2023-08-13"), none) :=
  ⟨(timeFormat_spec "newsdoc" "data.date" ["optional", "type=x", "format=2006-01-02",
      "format=15:04"]).1.trans (by decide),
   (timeFormat_spec "newsdoc" "data.date" ["optional", "formats=1"]).1.trans (by decide),
   ((timeFormat_spec "newsdoc" "data.date" ["format=2006-01-02"]).2.2 exampleEnv
      (blockAttributes dated) (.pointer "" (.base "time.Time" .Struct)) .zero "2023-08-13" ""
      (by decide) (Or.inr rfl)).trans (by decide)⟩

/-! ## Failure and scope of the recursion -/

theorem recurseLoop_slice_prefix (um : Callee) (pattern : List (String × String))
    (name : String) (eType : Ty) (hE : eType.Kind ≠ .Pointer) (pre rest : List Block)
    (field : Value)
    (hok : ∀ b ∈ pre, blockMatches pattern b = true →
      (um b (PointerTo eType) .zero).2 = none) :
    recurseLoop um pattern (.slice name eType) (pre ++ rest) field =
      recurseLoop um pattern (.slice name eType) rest
        ((freshElems um pattern eType pre).foldl Append field) := by
  induction pre generalizing field with
  | nil => simp [freshElems]
  | cons b pre ih =>
    have ih' := fun field => ih field (fun x hx => hok x (by simp [hx]))
    cases hb : blockMatches pattern b with
    | false =>
      have e : freshElems um pattern eType (b :: pre) = freshElems um pattern eType pre := by
        simp [freshElems, hb]
      rw [e]
      simp only [List.cons_append, recurseLoop, hb, Bool.not_false, ↓reduceIte]
      exact ih' field
    | true =>
      have h2 := hok b (by simp) hb
      rcases hu : um b (PointerTo eType) .zero with ⟨target, err⟩
      rw [hu] at h2
      simp only at h2
      subst h2
      have e : freshElems um pattern eType (b :: pre) =
          target :: freshElems um pattern eType pre := by
        simp [freshElems, hb, hu]
      rw [e]
      simp only [List.cons_append, recurseLoop, hb, Bool.not_true, Bool.false_eq_true,
        ↓reduceIte, hE, hu, List.foldl_cons]
      exact ih' _

/-- C18, as the code has it: when the recursive unmarshal of a block that passes the filter
fails, `recurse` returns that error.  A slice field then holds its elements and those of the
earlier blocks, all of which succeeded, and not the value of the failed block.  A pointer
field has been set, before the recursive call, to a pointer to the fresh value, and holds
what the failed call left in it; a struct field has been unmarshalled in place and holds
what the failed call left in it. -/
theorem recurse_failure (um : Callee) (pre post : List Block) (b : Block) (field : Value)
    (ndtag : Tag) (err : String)
    (hb : blockMatches (buildPattern ndtag.Options) b = true) :
    (∀ (name : String) (eType : Ty), eType.Kind ≠ .Pointer →
      (∀ x ∈ pre, blockMatches (buildPattern ndtag.Options) x = true →
        (um x (PointerTo eType) .zero).2 = none) →
      (um b (PointerTo eType) .zero).2 = some err →
      recurse um (pre ++ b :: post) (.slice name eType) field ndtag =
        ((freshElems um (buildPattern ndtag.Options) eType pre).foldl Append field, false,
          some err)) ∧
    (∀ (name : String) (elem : Ty),
      (∀ x ∈ pre, blockMatches (buildPattern ndtag.Options) x = false) →
      (um b (PointerTo elem) .zero).2 = some err →
      recurse um (pre ++ b :: post) (.pointer name elem) field ndtag =
        (.ptr (um b (PointerTo elem) .zero).1, false, some err)) ∧
    (∀ (name : String),
      (∀ x ∈ pre, blockMatches (buildPattern ndtag.Options) x = false) →
      (um b (PointerTo (.base name .Struct)) field).2 = some err →
      recurse um (pre ++ b :: post) (.base name .Struct) field ndtag =
        ((um b (PointerTo (.base name .Struct)) field).1, false, some err)) := by
  refine ⟨?_, ?_, ?_⟩
  · intro name eType hE hok he
    rw [recurse, recurseLoop_slice_prefix um _ name eType hE pre (b :: post) field hok]
    rcases hu : um b (PointerTo eType) .zero with ⟨target, e⟩
    rw [hu] at he
    simp only at he
    subst he
    simp only [recurseLoop, hb, Bool.not_true, Bool.false_eq_true, ↓reduceIte, hE, hu]
  · intro name elem hpre he
    rw [recurse, recurseLoop_first um _ _ pre post b field hpre hb]
    rcases hu : um b (PointerTo elem) .zero with ⟨target, e⟩
    rw [hu] at he
    simp only at he
    subst he
    simp only [hu]
  · intro name hpre he
    rw [recurse, recurseLoop_first um _ _ pre post b field hpre hb]
    rcases hu : um b (PointerTo (.base name .Struct)) field with ⟨target, e⟩
    rw [hu] at he
    simp only at he
    subst he
    simp only [hu]

theorem recurse_failure_witness :
    recurse (callee exampleEnv 1) ([description "internal" "a"] ++ brokenDescription :: [])
        (.slice "" (.base "descriptionBlock" .Struct)) .zero
        ⟨"newsdoc", "meta", ["type=core/description"]⟩ =
      (.slice [.struct [.str "internal", .str "a"]], false,
        some "failed to unmarshal .Text: missing required value") ∧
    recurse (callee exampleEnv 1) ([] ++ brokenDescription :: [])
        (.pointer "" (.base "descriptionBlock" .Struct)) .zero
        ⟨"newsdoc", "meta", ["type=core/description"]⟩ =
      (.ptr (.struct [.str "internal", .zero]), false,
        some "failed to unmarshal .Text: missing required value") :=
  have h := recurse_failure (callee exampleEnv 1)
  ⟨((h [description "internal" "a"] [] brokenDescription .zero
      ⟨"newsdoc", "meta", ["type=core/description"]⟩
      "failed to unmarshal .Text: missing required value" (by decide)).1 ""
      (.base "descriptionBlock" .Struct) (by decide) (by decide) (by decide)).trans
      (by decide),
   ((h [] [] brokenDescription .zero ⟨"newsdoc", "meta", ["type=core/description"]⟩
      "failed to unmarshal .Text: missing required value" (by decide)).2.1 ""
      (.base "descriptionBlock" .Struct) (by decide) (by decide)).trans (by decide)⟩

/-- C18 as stated fails: a pointer field that was unset does not stay unset when the
recursive unmarshal of the first matching block fails; it points to the fresh value, in
which the fields before the failing one are set. -/
theorem recurse_failure_counterexample :
    recurse (callee exampleEnv 1) [brokenDescription]
        (.pointer "" (.base "descriptionBlock" .Struct)) .zero
        ⟨"newsdoc", "meta", ["type=core/description"]⟩ =
      (.ptr (.struct [.str "internal", .zero]), false,
        some "failed to unmarshal .Text: missing required value") := by
  decide

/-! ## Scope and depth of the recursion -/

theorem recurseLoop_congr (um um' : Callee) (pattern : List (String × String)) (fieldTy : Ty)
    (blocks : List Block) (field : Value)
    (h : ∀ b ∈ blocks, ∀ t o, um b t o = um' b t o) :
    recurseLoop um pattern fieldTy blocks field =
      recurseLoop um' pattern fieldTy blocks field := by
  induction blocks generalizing field with
  | nil => rfl
  | cons b rest ih =>
    have ih' := fun field => ih field (fun x hx => h x (by simp [hx]))
    have hb := h b (by simp)
    simp only [recurseLoop, hb, ih']

theorem unmarshalField_congr (env : Env) (um um' : Callee) (tName : String)
    (blocks blocks' : BlockFunc) (attributes : AttrFunc) (field : StructField)
    (fieldRef : Value)
    (hb : ∀ g, g = "meta" ∨ g = "links" ∨ g = "content" → blocks g = blocks' g)
    (h : ∀ g, ∀ b ∈ blocks g, ∀ t o, um b t o = um' b t o) :
    unmarshalField env um tName blocks attributes field fieldRef =
      unmarshalField env um' tName blocks' attributes field fieldRef := by
  unfold unmarshalField
  split
  · rfl
  · rfl
  · split
    · rfl
    · rename_i ndtag _
      by_cases hn : ndtag.Name = "meta" ∨ ndtag.Name = "links" ∨ ndtag.Name = "content"
      · simp only [hn, ↓reduceIte, recurse, ← hb _ hn,
          recurseLoop_congr um um' _ _ _ _ (h ndtag.Name)]
      · simp only [hn, ↓reduceIte]

theorem unmarshalWith_congr (env : Env) (um um' : Callee) (blocks : BlockFunc)
    (attributes : AttrFunc) (t : Ty) (o : Value)
    (h : ∀ g, ∀ b ∈ blocks g, ∀ t o, um b t o = um' b t o) :
    unmarshalWith env um blocks attributes t o =
      unmarshalWith env um' blocks attributes t o := by
  unfold unmarshalWith
  split
  · split
    · rename_i tName e eName
      have : unmarshalField env um tName blocks attributes =
          unmarshalField env um' tName blocks attributes := by
        funext field fieldRef
        exact unmarshalField_congr env um um' tName blocks blocks attributes field fieldRef
          (fun _ _ => rfl) h
      rw [this]
    · rfl
  · rfl

theorem depth_le_depthList (b : Block) (bs : List Block) (h : b ∈ bs) :
    b.depth ≤ depthList bs := by
  induction bs with
  | nil => simp at h
  | cons a bs ih =>
    rw [depthList]
    rcases List.mem_cons.1 h with h | h
    · subst h
      exact Nat.le_max_left _ _
    · exact Nat.le_trans (ih h) (Nat.le_max_right _ _)

theorem depth_blockBlocks (b b' : Block) (g : String) (h : b' ∈ blockBlocks b g) :
    b'.depth < b.depth := by
  rcases b with ⟨_, _, _, _, _, _, _, _, _, _, _, _, links, content, meta⟩
  rw [Block.depth]
  simp only [blockBlocks] at h
  split at h
  · have := depth_le_depthList _ _ h
    omega
  · split at h
    · have := depth_le_depthList _ _ h
      omega
    · split at h
      · have := depth_le_depthList _ _ h
        omega
      · simp at h

theorem depth_documentBlocks (d : Document) (b : Block) (g : String)
    (h : b ∈ documentBlocks d g) : b.depth < d.depth := by
  rw [Document.depth]
  simp only [documentBlocks] at h
  split at h
  · have := depth_le_depthList _ _ h
    omega
  · split at h
    · have := depth_le_depthList _ _ h
      omega
    · split at h
      · have := depth_le_depthList _ _ h
        omega
      · simp at h

theorem unmarshalFrom_fuel (env : Env) (ex ex' : Value → Value × Option String) (fuel : Nat) :
    ∀ (fuel' : Nat) (blocks : BlockFunc) (attributes : AttrFunc) (t : Ty) (o : Value),
      (∀ g, ∀ b ∈ blocks g, b.depth ≤ fuel ∧ b.depth ≤ fuel') →
      unmarshalFrom env ex (fuel + 1) blocks attributes t o =
        unmarshalFrom env ex' (fuel' + 1) blocks attributes t o := by
  induction fuel with
  | zero =>
    intro fuel' blocks attributes t o h
    simp only [unmarshalFrom]
    apply unmarshalWith_congr
    intro g b hb
    have h1 := (h g b hb).1
    have h2 := depth_blockBlocks b
    rcases b with ⟨_, _, _, _, _, _, _, _, _, _, _, _, links, content, meta⟩
    rw [Block.depth] at h1
    omega
  | succ fuel ih =>
    intro fuel' blocks attributes t o h
    rw [unmarshalFrom]
    conv_rhs => rw [unmarshalFrom]
    apply unmarshalWith_congr
    intro g b hb t' o'
    obtain ⟨h1, h2⟩ := h g b hb
    have hpos : 1 ≤ b.depth := by
      rcases b with ⟨_, _, _, _, _, _, _, _, _, _, _, _, links, content, meta⟩
      rw [Block.depth]
      omega
    obtain ⟨k, rfl⟩ : ∃ k, fuel' = k + 1 := ⟨fuel' - 1, by omega⟩
    apply ih
    intro g' b' hb'
    have := depth_blockBlocks b b' g' hb'
    omega

theorem unmarshal_eq_unmarshalFrom (env : Env) (fuel : Nat) :
    ∀ (blocks : BlockFunc) (attributes : AttrFunc) (t : Ty) (o : Value),
      unmarshal env fuel blocks attributes t o =
        unmarshalFrom env (fun o => (o, some "recursion deeper than the fuel")) fuel blocks
          attributes t o := by
  induction fuel with
  | zero => intro blocks attributes t o; rfl
  | succ fuel ih =>
    intro blocks attributes t o
    rw [unmarshal, unmarshalFrom]
    apply unmarshalWith_congr
    intro g b _ t' o'
    exact ih _ _ _ _

/-- C19: `unmarshal` terminates: on a document, whatever stands for a recursion deeper than
the fuel, every fuel from the nesting depth of the document on gives the result of
`UnmarshalDocument`, so the recursion never goes deeper than the nesting of the blocks plus
one; this holds for every target type, also a struct with a slice or a pointer of its own
type.  The recursive calls are on the blocks of the current document or block, and those
are nested strictly less deep. -/
theorem UnmarshalDocument_terminates (env : Env) (doc : Document) (t : Ty) (o : Value) :
    (∀ (fuel : Nat) (exhausted : Value → Value × Option String), doc.depth ≤ fuel →
      unmarshalFrom env exhausted fuel (documentBlocks doc) (documentAttributes doc) t o =
        UnmarshalDocument env doc t o) ∧
    (∀ (g : String) (b : Block), b ∈ documentBlocks doc g → b.depth < doc.depth) ∧
    (∀ (b : Block) (g : String) (b' : Block), b' ∈ blockBlocks b g → b'.depth < b.depth) := by
  refine ⟨?_, fun g b h => depth_documentBlocks doc b g h,
    fun b g b' h => depth_blockBlocks b b' g h⟩
  intro fuel exhausted hf
  have hd : doc.depth = (doc.depth - 1) + 1 := by
    rw [Document.depth]
    omega
  obtain ⟨k, rfl⟩ : ∃ k, fuel = k + 1 := ⟨fuel - 1, by rw [Document.depth] at hf; omega⟩
  rw [UnmarshalDocument, unmarshal_eq_unmarshalFrom, hd]
  apply unmarshalFrom_fuel
  intro g b hb
  have := depth_documentBlocks doc b g hb
  omega

theorem UnmarshalDocument_terminates_witness :
    unmarshalFrom planningEnv (fun o => (o, some "deeper")) 3 (documentBlocks nodeDoc)
        (documentAttributes nodeDoc) (PointerTo (.base "node" .Struct)) .zero =
      (.struct [.str "root",
        .slice [
          .struct [.str "first", .slice [.struct [.str "inner", .zero, .zero]],
            .ptr (.struct [.str "linked", .zero, .zero])],
          .struct [.str "second", .zero, .zero]],
        .zero], none) :=
  ((UnmarshalDocument_terminates planningEnv nodeDoc (PointerTo (.base "node" .Struct))
      .zero).1 3 (fun o => (o, some "deeper")) (by decide)).trans (by decide)

/-- C17: for every block that `recurse` hands to the recursive call, at every depth, the
nested structure is unmarshalled with that block's own resolver and its own lists: the call
is `unmarshal` on the block's `Meta`, `Links` and `Content` and on its attributes; a field of
the nested structure that names a group is filled by `recurse` from the block's own list of
that group; a scalar field is read by `readValue` from the block's own attributes and data;
and the result for a group field depends on the enclosing document or block only through
the list of that group. -/
theorem unmarshal_block_scope (env : Env) (fuel : Nat) (b : Block) :
    (∀ (t : Ty) (o : Value),
      callee env (fuel + 1) b t o =
        unmarshalWith env (callee env fuel)
          (fun g =>
            if g = "meta" then b.Meta
            else if g = "links" then b.Links
            else if g = "content" then b.Content
            else [])
          (blockAttributes b) t o) ∧
    (∀ (um : Callee) (tName : String) (attributes : AttrFunc) (field : StructField)
        (fieldRef : Value) (ndtag : Tag), groupField field ndtag →
      unmarshalField env um tName (blockBlocks b) attributes field fieldRef =
        match recurse um
          (if ndtag.Name = "meta" then b.Meta
            else if ndtag.Name = "links" then b.Links else b.Content)
          field.Typ fieldRef ndtag with
        | (fieldRef', _, some err) =>
          (fieldRef', some ("failed to unmarshal blocks for " ++ tName ++ "." ++ field.Name
            ++ ": " ++ err))
        | (fieldRef', ok, none) =>
          if !ok && field.Typ.Kind != .Pointer then
            (fieldRef', some ("missing required block for " ++ tName ++ "." ++ field.Name))
          else (fieldRef', none)) ∧
    (∀ (um : Callee) (tName : String) (blocks : BlockFunc) (field : StructField)
        (fieldRef : Value) (tags : List Tag) (ndtag : Tag),
      field.Tag = .ok (some tags) → Tags.Get tags "newsdoc" = .ok ndtag →
      ¬ (ndtag.Name = "meta" ∨ ndtag.Name = "links" ∨ ndtag.Name = "content") →
      unmarshalField env um tName blocks (blockAttributes b) field fieldRef =
        match readValue env (blockAttributes b) field.Typ fieldRef ndtag with
        | (fieldRef', some err) =>
          (fieldRef', some ("failed to unmarshal " ++ tName ++ "." ++ field.Name ++ ": "
            ++ err))
        | (fieldRef', none) => (fieldRef', none)) ∧
    (∀ (tName : String) (blocks blocks' : BlockFunc) (attributes attributes' : AttrFunc)
        (field : StructField) (fieldRef : Value) (ndtag : Tag), groupField field ndtag →
      blocks ndtag.Name = blocks' ndtag.Name →
      unmarshalField env (callee env fuel) tName blocks attributes field fieldRef =
        unmarshalField env (callee env fuel) tName blocks' attributes' field fieldRef) := by
  refine ⟨fun t o => rfl, ?_, ?_, ?_⟩
  · intro um tName attributes field fieldRef ndtag hG
    rw [unmarshalField_group env um tName (blockBlocks b) attributes field fieldRef ndtag hG]
    have hl : blockBlocks b ndtag.Name =
        (if ndtag.Name = "meta" then b.Meta
          else if ndtag.Name = "links" then b.Links else b.Content) := by
      rcases hG.2 with h | h | h <;> simp [blockBlocks, h]
    rw [hl]
  · intro um tName blocks field fieldRef tags ndtag h1 h2 h3
    simp only [unmarshalField, h1, h2, h3, ↓reduceIte]
  · intro tName blocks blocks' attributes attributes' field fieldRef ndtag hG hb
    rw [unmarshalField_group env _ tName blocks attributes field fieldRef ndtag hG,
      unmarshalField_group env _ tName blocks' attributes' field fieldRef ndtag hG, hb]

theorem unmarshal_block_scope_witness :
    callee planningEnv 2 firstNode (PointerTo (.base "node" .Struct)) .zero =
      (.struct [.str "first", .slice [.struct [.str "inner", .zero, .zero]],
        .ptr (.struct [.str "linked", .zero, .zero])], none) ∧
    unmarshalField planningEnv (callee planningEnv 1) ""
        (blockBlocks { firstNode with Title := "outer", Links := [] })
        (blockAttributes { firstNode with Title := "outer", Links := [] })
        ⟨"Children", .slice "" (.base "node" .Struct),
          .ok (some [⟨"newsdoc", "content", []⟩])⟩ .zero =
      (.slice [.struct [.str "inner", .zero, .zero]], none) ∧
    UnmarshalDocument planningEnv planningDoc (PointerTo (.base "planning" .Struct)) .zero =
      (.struct [.struct [.int 2, .bool true],
        .slice [.struct [.ext "3f2c1a9e-5b7d-4c8f-9a1b-2d3e4f5a6b7c", .str "core/article"],
          .struct [.ext "8a7b6c5d-4e3f-4a2b-9c1d-0e9f8a7b6c5d", .str "core/flash"]]],
        none) :=
  ⟨((unmarshal_block_scope planningEnv 1 firstNode).1 (PointerTo (.base "node" .Struct))
      .zero).trans (by decide),
   ((unmarshal_block_scope planningEnv 1 firstNode).2.2.2 ""
      (blockBlocks { firstNode with Title := "outer", Links := [] })
      (blockBlocks firstNode)
      (blockAttributes { firstNode with Title := "outer", Links := [] })
      (blockAttributes firstNode)
      ⟨"Children", .slice "" (.base "node" .Struct), .ok (some [⟨"newsdoc", "content", []⟩])⟩
      .zero ⟨"newsdoc", "content", []⟩ ⟨⟨_, rfl, by decide⟩, by decide⟩ rfl).trans
      (by decide),
   by decide⟩

end Darknut
